import Mathlib

/-!
Shallow embedding of `deephaven/plot/express/plots/_private_utils.py`
(the figure-layering core of deephaven-plugins), together with theorems
settling the specification claims about it.

Modelling conventions:
* Python floats are modelled as rationals (`ℚ`); the claims under study are
  structural and error-behaviour claims, not rounding claims.
* Python dicts are insertion-ordered association lists with Python's dict
  semantics: assignment to an existing key replaces in place, assignment to a
  fresh key appends, `pop` removes.  Real Python dicts always have
  duplicate-free keys; theorems that need this carry a `Nodup` hypothesis.
* The code under study subscripts its documents at most three dict levels
  deep (layout -> axis object -> "domain" -> per-axis list) and only
  manipulates lists of numbers, so values are stratified: `Prim` (leaves),
  `Val1` (a field of a trace or axis object: leaf or dict of leaves), `LVal`
  (a layout or args entry: leaf or whole object).  This keeps every
  definition executable and its equalities decidable.
* Fallible code returns `Except PyErr`; each `PyErr` constructor is one
  Python exception class, carrying the message (or offending key).
* In-place mutation is modelled by returning the updated value.
-/

namespace PrivateUtils

/-- Python exception classes raised (or caught) by the embedded code. -/
inductive PyErr where
  | keyError (key : String)
  | valueError (msg : String)
  | zeroDivisionError (msg : String)
  | typeError (msg : String)
  | indexError (msg : String)
  | notImplementedError (msg : String)
deriving DecidableEq, Repr

/-- A primitive Python value appearing in the chart documents: a string (axis
reference), a number, a boolean, or a list of numbers (a domain). -/
inductive Prim where
  | str (s : String)
  | num (q : ℚ)
  | bool (b : Bool)
  | list (l : List ℚ)
deriving DecidableEq, Repr

/-- A dict of primitives: a trace's or scene object's inline `domain`
(`{"x": [lo, hi], "y": [lo, hi]}`). -/
abbrev PDict := List (String × Prim)

/-- A field of a trace or axis object: a primitive, or a nested dict of
primitives (the inline `domain`). -/
inductive Val1 where
  | prim (p : Prim)
  | pdict (d : PDict)
deriving DecidableEq, Repr

/-- Shorthand for a numeric field. -/
def Val1.num (q : ℚ) : Val1 := Val1.prim (Prim.num q)

/-- Shorthand for a string field. -/
def Val1.str (s : String) : Val1 := Val1.prim (Prim.str s)

/-- Shorthand for a list-of-numbers field. -/
def Val1.list (l : List ℚ) : Val1 := Val1.prim (Prim.list l)

/-- A trace or axis object: a Python dict of fields. -/
abbrev Obj := List (String × Val1)

/-- An entry of a figure layout or of an args dict: a primitive, or a whole
object (an axis object, a title dict, ...). -/
inductive LVal where
  | prim (p : Prim)
  | obj (d : Obj)
deriving DecidableEq, Repr

/-- Shorthand for a string layout entry. -/
def LVal.str (s : String) : LVal := LVal.prim (Prim.str s)

/-- Shorthand for a numeric layout entry. -/
def LVal.num (q : ℚ) : LVal := LVal.prim (Prim.num q)

/-- A figure layout or an args dict. -/
abbrev PyDict := List (String × LVal)

/-- The axis remap table: a Python dict from strings to strings. -/
abbrev SMap := List (String × String)

/-! ## Generic association-list operations with Python dict semantics -/

/-- Dict lookup `d.get(k)`: the first entry with key `k`, if any. -/
def aget? {α : Type} : List (String × α) → String → Option α
  | [], _ => none
  | (k', v) :: rest, k => if k' = k then some v else aget? rest k

/-- Dict assignment `d[k] = v`: replace in place if the key exists, else
append (Python's insertion-order semantics). -/
def aset {α : Type} : List (String × α) → String → α → List (String × α)
  | [], k, v => [(k, v)]
  | (k', v') :: rest, k, v =>
    if k' = k then (k, v) :: rest else (k', v') :: aset rest k v

/-- `k in d` for a dict. -/
def amem {α : Type} (d : List (String × α)) (k : String) : Bool :=
  (aget? d k).isSome

/-- `d.pop(k)`: the removed value and the remaining dict, `none` if absent. -/
def apop {α : Type} : List (String × α) → String → Option (α × List (String × α))
  | [], _ => none
  | (k', v') :: rest, k =>
    if k' = k then some (v', rest)
    else (apop rest k).map (fun p => (p.1, (k', v') :: p.2))

/-- The key list of a dict, in order. -/
def akeys {α : Type} (d : List (String × α)) : List String := d.map Prod.fst

/-- `d.update(u)`: fold Python dict assignment over `u`'s entries. -/
def aupdate {α : Type} (d u : List (String × α)) : List (String × α) :=
  u.foldl (fun acc p => aset acc p.1 p.2) d

/-- Dict lookup raising `KeyError` when absent (Python `d[k]`). -/
def agetE {α : Type} (d : List (String × α)) (k : String) : Except PyErr α :=
  match aget? d k with
  | some v => Except.ok v
  | none => Except.error (PyErr.keyError k)

/-! ## Dynamic-typing helpers -/

/-- Extract a number; Python arithmetic on a non-number raises `TypeError`. -/
def asNum : Val1 → Except PyErr ℚ
  | Val1.prim (Prim.num q) => Except.ok q
  | _ => Except.error (PyErr.typeError "unsupported operand type")

/-- Extract a nested dict; Python subscripting another field raises `TypeError`. -/
def asPDict : Val1 → Except PyErr PDict
  | Val1.pdict d => Except.ok d
  | _ => Except.error (PyErr.typeError "object is not subscriptable")

/-- Extract an object from a layout entry; Python subscripting a primitive
layout entry raises `TypeError`. -/
def asObj : LVal → Except PyErr Obj
  | LVal.obj d => Except.ok d
  | _ => Except.error (PyErr.typeError "object is not subscriptable")

/-- Python list indexing `l[i]`, raising `IndexError` when out of range. -/
def lgetQ (l : List ℚ) (i : ℕ) : Except PyErr ℚ :=
  match l.get? i with
  | some q => Except.ok q
  | none => Except.error (PyErr.indexError "list index out of range")

/-! ## Domain Mapper (`normalize_position`, `get_new_positions`) -/

/-- The `new_domain` argument of the public API: a Python dict with optional
keys `"x"` and `"y"` whose values are lists of floats (`dict[str, list[float]]`). -/
abbrev DomBox := List (String × List ℚ)

/-- Python truthiness of `new_domain.get(k, None)`: `None` and the empty list
are falsy, a non-empty list is truthy. -/
def dbTruthy (b : DomBox) (k : String) : Option (List ℚ) :=
  match aget? b k with
  | some l => if l.isEmpty then none else some l
  | none => none

/-- `normalize_position(position, chart_start, chart_range)`:
computes `(position - chart_start) / chart_range`.  Python evaluates the
subtraction first (a non-number raises `TypeError`), then the division
(`chart_range == 0` raises `ZeroDivisionError`). -/
def normalize_position (position : Val1) (chart_start chart_range : ℚ) :
    Except PyErr ℚ := do
  let p ← asNum position
  let diff := p - chart_start
  if chart_range = 0 then
    Except.error (PyErr.zeroDivisionError "float division by zero")
  else
    Except.ok (diff / chart_range)

/-- One loop iteration of `get_new_positions`: recompute `chart_range` from
`chart_domain`, normalize the position, then map it into the new domain. -/
def new_position_step (nd0 newRange : ℚ) (cd : List ℚ) (p : Val1) :
    Except PyErr ℚ := do
  let cd1 ← lgetQ cd 1
  let cd0 ← lgetQ cd 0
  let chartRange := cd1 - cd0
  let normalized ← normalize_position p cd0 chartRange
  Except.ok (nd0 + normalized * newRange)

/-- `get_new_positions(new_domain, positions, chart_domain)`:
a non-list `positions` is wrapped into a one-element list; then every position
is normalized against `chart_domain` and mapped into `new_domain`.  The result
is always a Python list (`new_positions`). -/
def get_new_positions (new_domain : List ℚ) (positions : Val1)
    (chart_domain : List ℚ) : Except PyErr Val1 := do
  let plist : List Val1 :=
    match positions with
    | Val1.prim (Prim.list l) => l.map Val1.num
    | v => [v]
  let nd1 ← lgetQ new_domain 1
  let nd0 ← lgetQ new_domain 0
  let newRange := nd1 - nd0
  let out ← plist.mapM (new_position_step nd0 newRange chart_domain)
  Except.ok (Val1.list out)

/-! ## Domain Resizer (`resize_domain`, `resize_xy_axis`) -/

/-- The `try:` body of `resize_domain`: build `domain_update` from the truthy
axes of `new_domain` and, when non-empty, assign it wholesale to the object's
`"domain"` key (Python `obj.update` replaces the value at that key). -/
def resize_domain_try (obj : Obj) (new_domain_x new_domain_y : Option (List ℚ))
    (obj_domain_x obj_domain_y : Prim) : Except PyErr Obj := do
  let du0 : PDict := []
  let du1 ← match new_domain_x with
    | some nx => do
        let px ← get_new_positions nx (Val1.prim obj_domain_x) [0, 1]
        match px with
        | Val1.prim p => Except.ok (aset du0 "x" p)
        | Val1.pdict _ => Except.error (PyErr.typeError "unexpected value")
    | none => Except.ok du0
  let du2 ← match new_domain_y with
    | some ny => do
        let py ← get_new_positions ny (Val1.prim obj_domain_y) [0, 1]
        match py with
        | Val1.prim p => Except.ok (aset du1 "y" p)
        | Val1.pdict _ => Except.error (PyErr.typeError "unexpected value")
    | none => Except.ok du1
  if du2.isEmpty then Except.ok obj
  else Except.ok (aset obj "domain" (Val1.pdict du2))

/-- `resize_domain(obj, new_domain)`: resize the bounding box of `obj`.
Faithful to the source: the `obj["domain"]["x"]` / `["y"]` lookups happen
before the `try:` block, so an object without a `"domain"` key (or whose
domain lacks `"x"`/`"y"`) raises `KeyError`; the `except` clause catches only
`ValueError`. -/
def resize_domain (obj : Obj) (new_domain : DomBox) : Except PyErr Obj := do
  let new_domain_x := dbTruthy new_domain "x"
  let new_domain_y := dbTruthy new_domain "y"
  let dom ← agetE obj "domain"
  let domD ← asPDict dom
  let obj_domain_x ← agetE domD "x"
  let obj_domain_y ← agetE domD "y"
  match resize_domain_try obj new_domain_x new_domain_y obj_domain_x obj_domain_y with
  | Except.ok obj' => Except.ok obj'
  | Except.error (PyErr.valueError _) => Except.ok obj
  | Except.error e => Except.error e

/-- The `try:` body of `resize_xy_axis`: build `axis_update` (new `"domain"`
along the matching dimension of `new_domain`, new scalar `"position"` along
the orthogonal one) and fold it into the axis object via `axis.update`. -/
def resize_xy_axis_try (axis : Obj) (new_domain_x new_domain_y : Option (List ℚ))
    (axis_domain : Val1) (axis_position : Option Val1) (which : String) :
    Except PyErr Obj := do
  let ndDom := if which = "x" then new_domain_x else new_domain_y
  let ndPos := if which = "x" then new_domain_y else new_domain_x
  let au0 : Obj := []
  let au1 ← match ndDom with
    | some ndl => do
        let pd ← get_new_positions ndl axis_domain [0, 1]
        Except.ok (aset au0 "domain" pd)
    | none => Except.ok au0
  let au2 ← match ndPos, axis_position with
    | some ndl, some pos => do
        let pv ← get_new_positions ndl pos [0, 1]
        match pv with
        | Val1.prim (Prim.list l) => do
            let q ← lgetQ l 0
            Except.ok (aset au1 "position" (Val1.num q))
        | _ => Except.error (PyErr.typeError "unexpected value")
    | _, _ => Except.ok au1
  Except.ok (aupdate axis au2)

/-- `resize_xy_axis(axis, new_domain, which)`: resize an x- or y-axis object.
Faithful to the source: the `axis["domain"]` lookup happens before the `try:`
block, so an axis object without a `"domain"` key raises `KeyError`; the
`except` clause catches only `ValueError`. -/
def resize_xy_axis (axis : Obj) (new_domain : DomBox) (which : String) :
    Except PyErr Obj := do
  let new_domain_x := dbTruthy new_domain "x"
  let new_domain_y := dbTruthy new_domain "y"
  let axis_domain ← agetE axis "domain"
  let axis_position := aget? axis "position"
  match resize_xy_axis_try axis new_domain_x new_domain_y axis_domain
      axis_position which with
  | Except.ok axis' => Except.ok axis'
  | Except.error (PyErr.valueError _) => Except.ok axis
  | Except.error e => Except.error e

/-! ## Axis reference rewriting (`reassign_axes`, `reassign_attributes`) -/

/-- Lookup in the axis remap table (a Python dict from strings to strings). -/
def slookup : SMap → String → Option String
  | [], _ => none
  | (k', t) :: rest, k => if k' = k then some t else slookup rest k

/-- Index the remap table with a trace's reference value
(`axes_remapping[trace[k]]`): a string key missing from the table raises
`KeyError`; a non-string primitive is hashable but is never a key of the
table (its keys are strings), so it also raises `KeyError`; an unhashable
value (a dict) raises `TypeError`. -/
def remapIndex (remap : SMap) (v : Val1) : Except PyErr String :=
  match v with
  | Val1.prim (Prim.str s) =>
    match slookup remap s with
    | some t => Except.ok t
    | none => Except.error (PyErr.keyError s)
  | Val1.prim _ => Except.error (PyErr.keyError "non-string key")
  | Val1.pdict _ => Except.error (PyErr.typeError "unhashable type")

/-- One conditional rewrite of `reassign_axes`:
`if k in trace: trace.update(k=axes_remapping[trace[k]])`. -/
def reassignField (remap : SMap) (trace : Obj) (k : String) :
    Except PyErr Obj :=
  match aget? trace k with
  | none => Except.ok trace
  | some v => do
      let t ← remapIndex remap v
      Except.ok (aset trace k (Val1.str t))

/-- `reassign_axes(trace, axes_remapping)`: rewrite the trace's `xaxis`,
`yaxis`, `scene`, `subplot` and `ternary` references through the remap table,
in that order; absent fields are left untouched. -/
def reassign_axes (trace : Obj) (remap : SMap) : Except PyErr Obj := do
  let t1 ← reassignField remap trace "xaxis"
  let t2 ← reassignField remap t1 "yaxis"
  let t3 ← reassignField remap t2 "scene"
  let t4 ← reassignField remap t3 "subplot"
  reassignField remap t4 "ternary"

/-- One conditional rewrite of `reassign_attributes` on an axis object:
`if k in axis and axis[k] in axes_remapping: axis.update(...)`.  The `in`
test on the remap table only succeeds for string values that are keys of the
table (values such as the sentinel `"free"` anchor are left as-is). -/
def reassignAttr (remap : SMap) (axis : Obj) (k : String) : Obj :=
  match aget? axis k with
  | some (Val1.prim (Prim.str s)) =>
    match slookup remap s with
    | some t => aset axis k (Val1.str t)
    | none => axis
  | _ => axis

/-- `reassign_attributes(axis, axes_remapping)`: rewrite the `anchor` and
`overlaying` references of a layout value when they are remapped keys.
Layout values that are not dicts carry no such attributes and pass through. -/
def reassign_attributes (remap : SMap) : LVal → LVal
  | LVal.obj d => LVal.obj (reassignAttr remap (reassignAttr remap d "anchor") "overlaying")
  | v => v

/-! ## Decimal rendering of the axis counter (Python `str(int)` inside the
f-string `f"{type_}{num}"`) -/

/-- A decimal digit character, `'0'` through `'9'`. -/
def pyDigitChar : ℕ → Char
  | 0 => '0'
  | 1 => '1'
  | 2 => '2'
  | 3 => '3'
  | 4 => '4'
  | 5 => '5'
  | 6 => '6'
  | 7 => '7'
  | 8 => '8'
  | _ => '9'

/-- Inverse of `pyDigitChar` on decimal digit characters. -/
def charDigit : Char → ℕ
  | '0' => 0
  | '1' => 1
  | '2' => 2
  | '3' => 3
  | '4' => 4
  | '5' => 5
  | '6' => 6
  | '7' => 7
  | '8' => 8
  | _ => 9

/-- Little-endian decimal digits of `n`, with explicit fuel (the fuel `n`
itself always suffices); `digitsAux fuel 0 = []`. -/
def digitsAux : ℕ → ℕ → List ℕ
  | 0, _ => []
  | fuel + 1, n => if n = 0 then [] else n % 10 :: digitsAux fuel (n / 10)

/-- Python `str(n)` for a natural number: its decimal representation. -/
def natDecStr (n : ℕ) : String :=
  if n = 0 then "0" else String.mk (((digitsAux n n).reverse).map pyDigitChar)

/-- The numeral suffix of an axis key: the counter value `n` rendered as in
the source (`num = "" if new_axes_start[type_] == 1 else new_axes_start[type_]`
followed by the f-string). -/
def numStr (n : ℕ) : String :=
  if n = 1 then "" else natDecStr n

/-! ## Axis families and layout-key classification -/

/-- The five axis families recognized by `resize`'s `startswith` chain. -/
inductive Family where
  | xaxis
  | yaxis
  | scene
  | polar
  | ternary
deriving DecidableEq, Repr

/-- The layout-key prefix of a family (the `type_` string of the source). -/
def Family.str : Family → String
  | Family.xaxis => "xaxis"
  | Family.yaxis => "yaxis"
  | Family.scene => "scene"
  | Family.polar => "polar"
  | Family.ternary => "ternary"

/-- Boolean prefix test on character lists (the recursion behind
`pyStartsWith`). -/
def startsAux : List Char → List Char → Bool
  | [], _ => true
  | _ :: _, [] => false
  | a :: as, b :: bs => a = b && startsAux as bs

/-- Python `s.startswith(pre)`. -/
def pyStartsWith (s pre : String) : Bool :=
  startsAux pre.data s.data

/-- The `startswith` classification chain at the top of `resize`'s layout
loop: the family whose prefix the key carries, if any. -/
def classify (k : String) : Option Family :=
  if pyStartsWith k "xaxis" then some Family.xaxis
  else if pyStartsWith k "yaxis" then some Family.yaxis
  else if pyStartsWith k "scene" then some Family.scene
  else if pyStartsWith k "polar" then some Family.polar
  else if pyStartsWith k "ternary" then some Family.ternary
  else none

/-- The mutable `new_axes_start` dictionary: one counter per axis family. -/
structure AxesStart where
  xaxis : ℕ
  yaxis : ℕ
  scene : ℕ
  polar : ℕ
  ternary : ℕ
deriving DecidableEq, Repr

/-- `new_axes_start[f]`. -/
def AxesStart.get (st : AxesStart) : Family → ℕ
  | Family.xaxis => st.xaxis
  | Family.yaxis => st.yaxis
  | Family.scene => st.scene
  | Family.polar => st.polar
  | Family.ternary => st.ternary

/-- `new_axes_start[f] = n`. -/
def AxesStart.set (st : AxesStart) : Family → ℕ → AxesStart
  | Family.xaxis, n => { st with xaxis := n }
  | Family.yaxis, n => { st with yaxis := n }
  | Family.scene, n => { st with scene := n }
  | Family.polar, n => { st with polar := n }
  | Family.ternary, n => { st with ternary := n }

/-- The fresh counter state created once per `layer` call
(`{"xaxis": 1, "yaxis": 1, "scene": 1, "polar": 1, "ternary": 1}`). -/
def initAxesStart : AxesStart := ⟨1, 1, 1, 1, 1⟩

/-- Python `s[0]` on a string: its first character as a 1-character string. -/
def strHead (s : String) : Except PyErr String :=
  match s.data with
  | [] => Except.error (PyErr.indexError "string index out of range")
  | c :: _ => Except.ok (String.mk [c])

/-- The character-list recursion behind `pyReplace`, with explicit fuel (the
length of the subject list always suffices): at each position, if `old` is a
prefix, emit `new` and skip past the occurrence, else keep the character.
Replacements are non-overlapping and proceed left to right. -/
def replaceFuel (old new : List Char) : ℕ → List Char → List Char
  | 0, s => s
  | _ + 1, [] => []
  | fuel + 1, c :: rest =>
    if startsAux old (c :: rest) then
      new ++ replaceFuel old new fuel ((c :: rest).drop old.length)
    else
      c :: replaceFuel old new fuel rest

/-- Python `s.replace(old, new)` for a non-empty `old` (every call site
passes a five-letter family name): replace all non-overlapping occurrences,
left to right.  For an empty `old` the subject is returned unchanged (the
code never calls it that way). -/
def pyReplace (s old new : String) : String :=
  if old.data.isEmpty then s
  else String.mk (replaceFuel old.data new.data s.data.length s.data)

/-- `resize_axis(type_, old_axis, axis, num, new_domain)`: resize one layout
object and return `(updated object, new layout key, old trace reference, new
trace reference)`.  For the 2-D families the trace references drop the
`"axis"` infix (`which = type_[0]`, `old_axis.replace(type_, which)`); for
the one-box families the layout key doubles as the trace reference. -/
def resize_axis (type_ old_axis : String) (axis : Obj) (num : String)
    (new_domain : DomBox) : Except PyErr (Obj × String × String × String) := do
  let new_axis := type_ ++ num
  if type_ = "xaxis" ∨ type_ = "yaxis" then do
    let which ← strHead type_
    let axis' ← resize_xy_axis axis new_domain which
    let old_trace_axis := pyReplace old_axis type_ which
    Except.ok (axis', new_axis, old_trace_axis, which ++ num)
  else do
    let axis' ← resize_domain axis new_domain
    Except.ok (axis', new_axis, old_axis, new_axis)

/-! ## `resize`: renumber, resize and rewire one figure -/

/-- The loop state of `resize`'s pass over the layout items: the trace-level
reference remap table, the freshly keyed layout objects, the consumed
original keys, and the shared numbering state. -/
structure ResizeAcc where
  axes_remapping : SMap
  new_axes : PyDict
  old_axes : List String
  st : AxesStart
deriving DecidableEq, Repr

/-- The `for k, v in fig_layout.items()` loop of `resize`: classify each key
by family prefix; for a classified key read and increment the family counter,
record the key as consumed, resize the object via `resize_axis`, file the
object under its new key and extend the remap table. -/
def resizeLoop (nd : DomBox) : List (String × LVal) → ResizeAcc →
    Except PyErr ResizeAcc
  | [], acc => Except.ok acc
  | (k, v) :: rest, acc =>
    match classify k with
    | none => resizeLoop nd rest acc
    | some f => do
        let num := numStr (acc.st.get f)
        let st' := acc.st.set f (acc.st.get f + 1)
        let axisObj ← asObj v
        let r ← resize_axis f.str k axisObj num nd
        resizeLoop nd rest
          ⟨aset acc.axes_remapping r.2.2.1 r.2.2.2,
           aset acc.new_axes r.2.1 (LVal.obj r.1),
           acc.old_axes ++ [k], st'⟩

/-- `fig_layout.pop(axis)` raising `KeyError` when the key is absent. -/
def popKeyE (d : PyDict) (k : String) : Except PyErr PyDict :=
  match apop d k with
  | some p => Except.ok p.2
  | none => Except.error (PyErr.keyError k)

/-- The `for axis in old_axes: fig_layout.pop(axis)` loop of `resize`. -/
def popAll (d : PyDict) : List String → Except PyErr PyDict
  | [] => Except.ok d
  | k :: rest => do
      let d' ← popKeyE d k
      popAll d' rest

/-- The per-trace step of `resize`: rewrite the trace's axis references, then
resize its inline `domain` if it carries one. -/
def resizeTrace (nd : DomBox) (remap : SMap) (tr : Obj) : Except PyErr Obj := do
  let tr' ← reassign_axes tr remap
  if amem tr' "domain" then resize_domain tr' nd else Except.ok tr'

/-- `resize(fig_data, fig_layout, new_domain, new_axes_start)`: no-op when
`new_domain` is falsy; otherwise renumber every family-classified layout key
with the shared counters, pop all original axis keys, merge the renumbered
objects back in, rewrite every trace's references (resizing inline trace
domains), and rewrite `anchor`/`overlaying` attributes of the layout values. -/
def resize (fig_data : List Obj) (fig_layout : PyDict) (new_domain : DomBox)
    (new_axes_start : AxesStart) :
    Except PyErr (List Obj × PyDict × AxesStart) :=
  if new_domain.isEmpty then Except.ok (fig_data, fig_layout, new_axes_start)
  else do
    let acc ← resizeLoop new_domain fig_layout ⟨[], [], [], new_axes_start⟩
    let layout1 ← popAll fig_layout acc.old_axes
    let layout2 := aupdate layout1 acc.new_axes
    let data' ← fig_data.mapM (resizeTrace new_domain acc.axes_remapping)
    let layout3 := layout2.map (fun p => (p.1, reassign_attributes acc.axes_remapping p.2))
    Except.ok (data', layout3, acc.st)

/-! ## Figure Layering Engine (`fig_data_and_layout`, `layer`) -/

/-- A raw plotly `Figure`: its traces (`fig.to_dict()['data']`) and its
layout (`fig.to_dict()['layout']`). -/
structure Fig where
  data : List Obj
  layout : PyDict
deriving DecidableEq, Repr

/-- Modelled from the spec: a `DataMapping` of the `deephaven_figure` module
(not under `src/`) associates source data columns with trace positions; the
only operation this core needs is re-expressing its trace indices under an
additive offset, so it is modelled by its list of trace indices. -/
structure DataMapping where
  traceIndices : List ℕ
deriving DecidableEq, Repr

/-- Modelled from the spec: `DeephavenFigure.copy_mappings(offset)` of the
`deephaven_figure` module (not under `src/`) returns a copy of the figure's
data mappings with every trace index shifted by `offset`. -/
def copy_mappings (ms : List DataMapping) (offset : ℕ) : List DataMapping :=
  ms.map (fun m => ⟨m.traceIndices.map (· + offset)⟩)

/-- A `DeephavenFigure`: a wrapped plotly figure plus its data mappings and
the `has_template` / `has_color` / `has_subplots` flags. -/
structure DeephavenFigure where
  fig : Fig
  data_mappings : List DataMapping
  has_template : Bool
  has_color : Bool
  has_subplots : Bool
deriving DecidableEq, Repr

/-- An argument of `layer`: a raw `Figure` or a wrapped `DeephavenFigure`. -/
inductive LayerArg where
  | fig (f : Fig)
  | dh (d : DeephavenFigure)
deriving DecidableEq, Repr

/-- `default_callback`: returns the passed figure. -/
def default_callback (fig : Fig) : Fig := fig

/-- Python truthiness of `not which_layout`: true for `None` and for `0`. -/
def pyNotWhichLayout : Option ℕ → Bool
  | none => true
  | some 0 => true
  | some (_ + 1) => false

/-- Python truthiness of the `domains` argument: `None` and the empty list
are falsy. -/
def domainsTruthy : Option (List DomBox) → Bool
  | none => false
  | some l => !l.isEmpty

/-- Python list indexing `domains[i]`. -/
def lgetBox (l : List DomBox) (i : ℕ) : Except PyErr DomBox :=
  match l.get? i with
  | some b => Except.ok b
  | none => Except.error (PyErr.indexError "list index out of range")

/-- `fig_data_and_layout(fig, i, domains, which_layout, new_axes_start)`:
with truthy `domains`, resize the figure into `domains[i]`; otherwise keep
the traces unchanged and include the layout exactly when
`not which_layout or which_layout == i`. -/
def fig_data_and_layout (fig : Fig) (i : ℕ) (domains : Option (List DomBox))
    (which_layout : Option ℕ) (new_axes_start : AxesStart) :
    Except PyErr (List Obj × PyDict × AxesStart) :=
  if domainsTruthy domains then do
    let db ← lgetBox (domains.getD []) i
    resize fig.data fig.layout db new_axes_start
  else
    Except.ok (fig.data,
      (if pyNotWhichLayout which_layout || which_layout == some i
       then fig.layout else []),
      new_axes_start)

/-- The running state of `layer`'s loop over its arguments. -/
structure LayerAcc where
  new_data : List Obj
  new_layout : PyDict
  new_data_mappings : List DataMapping
  new_has_template : Bool
  new_has_color : Bool
  axes : AxesStart
deriving DecidableEq, Repr

/-- The `for i, arg in enumerate(args)` loop of `layer`.  A raw figure just
contributes data and layout; a `DeephavenFigure` is rejected when it has
subplots, and otherwise additionally contributes its offset-adjusted data
mappings and its folded `has_template` / `has_color` flags. -/
def layerLoop (which_layout : Option ℕ) (domains : Option (List DomBox)) :
    List LayerArg → ℕ → LayerAcc → Except PyErr LayerAcc
  | [], _, acc => Except.ok acc
  | LayerArg.fig f :: rest, i, acc => do
      let r ← fig_data_and_layout f i domains which_layout acc.axes
      layerLoop which_layout domains rest (i + 1)
        { acc with
          new_data := acc.new_data ++ r.1,
          new_layout := aupdate acc.new_layout r.2.1,
          axes := r.2.2 }
  | LayerArg.dh d :: rest, i, acc => do
      let offset := acc.new_data.length
      if d.has_subplots then
        Except.error (PyErr.notImplementedError
          "Cannot currently add figure with subplots as a subplot")
      else do
        let r ← fig_data_and_layout d.fig i domains which_layout acc.axes
        layerLoop which_layout domains rest (i + 1)
          { new_data := acc.new_data ++ r.1,
            new_layout := aupdate acc.new_layout r.2.1,
            new_data_mappings :=
              acc.new_data_mappings ++ copy_mappings d.data_mappings offset,
            new_has_template := d.has_template || acc.new_has_template,
            new_has_color := d.has_color || acc.new_has_color,
            axes := r.2.2 }

/-- `layer(*args, which_layout=None, domains=None, unsafe_update=default_callback)`:
compose the given figures.  Zero arguments raise `ValueError`; a
`DeephavenFigure` with subplots raises `NotImplementedError`.  The result is
a `DeephavenFigure` wrapping the concatenated traces and merged layout
(after `unsafe_update`), with `has_subplots = True`. -/
def layer (args : List LayerArg) (which_layout : Option ℕ)
    (domains : Option (List DomBox)) (unsafe_update : Fig → Fig) :
    Except PyErr DeephavenFigure :=
  if args.length = 0 then
    Except.error (PyErr.valueError "No figures provided to compose")
  else do
    let acc ← layerLoop which_layout domains args 0
      ⟨[], [], [], false, false, initAxesStart⟩
    let new_fig := unsafe_update ⟨acc.new_data, acc.new_layout⟩
    Except.ok ⟨new_fig, acc.new_data_mappings, acc.new_has_template,
      acc.new_has_color, true⟩

/-- The data mappings the claim expects from a composition: each input
figure's mappings shifted by the number of traces accumulated before that
input is appended (stated from the claim; compare with `layer`). -/
def expectedMappings : ℕ → List DeephavenFigure → List DataMapping
  | _, [] => []
  | off, d :: rest =>
    copy_mappings d.data_mappings off
      ++ expectedMappings (off + d.fig.data.length) rest

/-! ## `remap_scene_args` -/

/-- The fixed argument names renamed by `remap_scene_args`, in loop order. -/
def scene_arg_names : List String :=
  ["range_x", "range_y", "range_z", "log_x", "log_y", "log_z"]

/-- The loop of `remap_scene_args`: for each name, `args.pop(name)` (raising
`KeyError` when absent) then `args[name + "_scene"] = value`.  Because the
dict is mutated in place, an exception leaves the names already processed
renamed; the result is the dict state together with the exception, if any. -/
def remapSceneLoop : List String → PyDict → PyDict × Option PyErr
  | [], args => (args, none)
  | name :: rest, args =>
    match apop args name with
    | none => (args, some (PyErr.keyError name))
    | some p => remapSceneLoop rest (aset p.2 (name ++ "_scene") p.1)

/-- `remap_scene_args(args)`: rename `range_x`, `range_y`, `range_z`,
`log_x`, `log_y`, `log_z` by appending `"_scene"`. -/
def remap_scene_args (args : PyDict) : PyDict × Option PyErr :=
  remapSceneLoop scene_arg_names args

/-! ## Derived notions for the axis-renumbering claims -/

/-- The trace-level reference prefix of a family: the 2-D families drop the
`"axis"` infix, the one-box families use the layout prefix itself. -/
def famRef : Family → String
  | Family.xaxis => "x"
  | Family.yaxis => "y"
  | f => f.str

/-- The layout key `resize` assigns to an axis when the family counter
stands at `n`. -/
def keyOf (f : Family) (n : ℕ) : String := f.str ++ numStr n

/-- The trace-level reference `resize` assigns to an axis when the family
counter stands at `n`. -/
def traceRef (f : Family) (n : ℕ) : String := famRef f ++ numStr n

/-- Strip the `"axis"` infix from a 2-D axis layout key (stated from the
claim: a trace reference corresponds to a layout key after stripping the
family infix; non-2-D keys are their own trace reference). -/
def stripAxisInfix (k : String) : String :=
  match classify k with
  | some Family.xaxis => "x" ++ String.mk (k.data.drop 5)
  | some Family.yaxis => "y" ++ String.mk (k.data.drop 5)
  | _ => k

/-- The keys of a layout classified into a family, in order. -/
def famKeys (f : Family) (d : PyDict) : List String :=
  (akeys d).filter (fun k => classify k == some f)

/-- The number of layout entries classified into a family. -/
def cntFam (f : Family) (d : PyDict) : ℕ := (famKeys f d).length

/-- The loop invariant of `resizeLoop` relative to the counter state `st0`
the surrounding `resize` call started from: counters only grow; the new
layout keys of each family are exactly the consumed counter window rendered
through `keyOf`; every remap-table value is the trace reference of a
consumed counter; the new keys are duplicate-free; and every new key is a
`keyOf` of a consumed counter. -/
def ResizeInv (st0 : AxesStart) (acc : ResizeAcc) : Prop :=
  (∀ g, st0.get g ≤ acc.st.get g)
  ∧ (∀ g, famKeys g acc.new_axes
      = (List.range' (st0.get g) (acc.st.get g - st0.get g)).map (keyOf g))
  ∧ (∀ p ∈ acc.axes_remapping, ∃ g m, st0.get g ≤ m ∧ m < acc.st.get g
      ∧ p.2 = traceRef g m)
  ∧ (akeys acc.new_axes).Nodup
  ∧ (∀ k ∈ akeys acc.new_axes, ∃ g m, st0.get g ≤ m ∧ m < acc.st.get g
      ∧ k = keyOf g m)

/-- Value of a little-endian digit list (inverse of `digitsAux`). -/
def digitsVal : List ℕ → ℕ
  | [] => 0
  | d :: ds => d + 10 * digitsVal ds

/-- Decode a decimal string back to the natural number it denotes
(left inverse of `natDecStr`). -/
def strDecode (s : String) : ℕ := digitsVal (s.data.reverse.map charDigit)

/-- The domains path of `layer` (one figure per domain box): thread the
shared numbering state through `resize` for each input in order, keeping
each input's resulting layout separately.  `layer` merges these layouts;
they are kept apart here to state which keys each input's resize assigned. -/
def resizeSeq : List (Fig × DomBox) → AxesStart →
    Except PyErr (List PyDict × AxesStart)
  | [], st => Except.ok ([], st)
  | (f, b) :: rest, st => do
      let r ← resize f.data f.layout b st
      let r2 ← resizeSeq rest r.2.2
      Except.ok (r.2.1 :: r2.1, r2.2)

/-- Whether an `Except` result is a raised `ValueError`. -/
def isValueError {α : Type} : Except PyErr α → Bool
  | Except.error (PyErr.valueError _) => true
  | _ => false

/-- Whether a field value is a Python list. -/
def isListVal : Val1 → Bool
  | Val1.prim (Prim.list _) => true
  | _ => false

/-! ## Supporting lemmas -/

deriving instance DecidableEq for Except

/-- Inversion of a successful `Except` bind. -/
theorem except_bind_ok {α β : Type} (x : Except PyErr α) (f : α → Except PyErr β)
    (b : β) : x >>= f = Except.ok b ↔ ∃ a, x = Except.ok a ∧ f a = Except.ok b := by
  cases x <;> simp [Bind.bind, Except.bind]

/-- A successful `Except`-valued `mapM` preserves the length of the list. -/
theorem mapM_ok_length {α β : Type} (f : α → Except PyErr β) :
    ∀ (l : List α) (out : List β), l.mapM f = Except.ok out →
      out.length = l.length := by
  intro l
  induction l with
  | nil =>
    intro out h
    simp [List.mapM, List.mapM.loop, Pure.pure, Except.pure] at h
    simp [← h]
  | cons a rest ih =>
    intro out h
    rw [List.mapM_cons] at h
    rw [except_bind_ok] at h
    obtain ⟨b, _, h⟩ := h
    rw [except_bind_ok] at h
    obtain ⟨bs, hbs, h⟩ := h
    simp [Pure.pure, Except.pure] at h
    simp [← h, ih bs hbs]

/-! ## Claim C5 -/

/-- C5 (code_bug evidence): an object lacking a `domain` field is not
silently skipped: `resize_domain` and `resize_xy_axis` both raise
`KeyError("domain")` on it, because the `obj["domain"]` lookup precedes the
`try:` block (whose `except` clause moreover only catches `ValueError`). -/
theorem claim_C5 :
    resize_domain [] [("x", [0, 1/2])] = Except.error (PyErr.keyError "domain")
    ∧ resize_xy_axis [] [("x", [0, 1/2])] "x" = Except.error (PyErr.keyError "domain")
    ∧ resize_xy_axis [("position", Val1.num (1/2))] [("y", [0, 1/2])] "x"
        = Except.error (PyErr.keyError "domain") := by
  decide

/-! ## Claim C6 -/

/-- C6 (counterexample): with a zero-width source domain the code raises
`ZeroDivisionError`, not the `ValueError` the claim asserts. -/
theorem claim_C6_counterexample :
    normalize_position (Val1.num 1) 0 0
      = Except.error (PyErr.zeroDivisionError "float division by zero")
    ∧ isValueError (normalize_position (Val1.num 1) 0 0) = false := by
  decide

/-- C6 (amended): for every position and every zero-width source domain,
`normalize_position` and `get_new_positions` fail with `ZeroDivisionError`
(raised, never returning an infinite or NaN value) - not with `ValueError`. -/
theorem claim_C6 :
    (∀ p s : ℚ, normalize_position (Val1.num p) s 0
      = Except.error (PyErr.zeroDivisionError "float division by zero"))
    ∧ ∀ (nd : List ℚ) (q c : ℚ) (rest : List ℚ), 2 ≤ nd.length →
        get_new_positions nd (Val1.num q) (c :: c :: rest)
          = Except.error (PyErr.zeroDivisionError "float division by zero") := by
  constructor
  · intro p s
    simp [normalize_position, asNum, Val1.num, Bind.bind, Except.bind]
  · intro nd q c rest h
    match nd, h with
    | a :: b :: nd', _ =>
      simp [get_new_positions, Val1.num, lgetQ, Bind.bind, Except.bind,
        List.mapM, List.mapM.loop, new_position_step, normalize_position, asNum]

/-- C6 (witness): the amended claim at concrete inputs. -/
theorem claim_C6_witness :
    normalize_position (Val1.num 1) 0 0
      = Except.error (PyErr.zeroDivisionError "float division by zero")
    ∧ get_new_positions [0, 1] (Val1.num (1/2)) [3, 3]
      = Except.error (PyErr.zeroDivisionError "float division by zero") :=
  ⟨claim_C6.1 1 0, claim_C6.2 [0, 1] (1/2) 3 [] (by decide)⟩

/-! ## Claim C7 -/

unseal Rat.add Rat.sub Rat.mul Rat.inv in
/-- C7 (counterexample): `get_new_positions` on a scalar position returns a
one-element Python list, not a scalar of the same shape as its input. -/
theorem claim_C7_counterexample :
    get_new_positions [0, 1/2] (Val1.num (1/2)) [0, 1]
      = Except.ok (Val1.list [1/4])
    ∧ isListVal (Val1.num (1/2)) = false
    ∧ isListVal (Val1.list [1/4]) = true := by
  decide

/-- C7 (amended): `get_new_positions` accepts a scalar or a list of
positions, but every successful result is a list: a one-element list for a
scalar input, and a list of the same length for a list input. -/
theorem claim_C7 (nd cd : List ℚ) (pos : Val1) (r : Val1)
    (h : get_new_positions nd pos cd = Except.ok r) :
    ∃ out : List ℚ, r = Val1.list out
      ∧ (isListVal pos = false → out.length = 1)
      ∧ (∀ l : List ℚ, pos = Val1.prim (Prim.list l) → out.length = l.length) := by
  cases pos with
  | prim p =>
    cases p with
    | list l =>
      simp only [get_new_positions, except_bind_ok] at h
      obtain ⟨nd1, h1, h⟩ := h
      obtain ⟨nd0, h0, h⟩ := h
      obtain ⟨out, hout, hr⟩ := h
      have hrr : r = Val1.list out := by cases hr; rfl
      refine ⟨out, hrr, ?_, ?_⟩
      · intro hs; simp [isListVal] at hs
      · intro l' hl'
        have hll : l' = l := by cases hl'; rfl
        subst hll
        simpa using mapM_ok_length _ _ _ hout
    | str s =>
      simp only [get_new_positions, except_bind_ok] at h
      obtain ⟨nd1, h1, h⟩ := h
      obtain ⟨nd0, h0, h⟩ := h
      obtain ⟨out, hout, hr⟩ := h
      have hrr : r = Val1.list out := by cases hr; rfl
      refine ⟨out, hrr, fun _ => by simpa using mapM_ok_length _ _ _ hout,
        fun l' hl' => absurd hl' (by simp)⟩
    | num q =>
      simp only [get_new_positions, except_bind_ok] at h
      obtain ⟨nd1, h1, h⟩ := h
      obtain ⟨nd0, h0, h⟩ := h
      obtain ⟨out, hout, hr⟩ := h
      have hrr : r = Val1.list out := by cases hr; rfl
      refine ⟨out, hrr, fun _ => by simpa using mapM_ok_length _ _ _ hout,
        fun l' hl' => absurd hl' (by simp)⟩
    | bool b =>
      simp only [get_new_positions, except_bind_ok] at h
      obtain ⟨nd1, h1, h⟩ := h
      obtain ⟨nd0, h0, h⟩ := h
      obtain ⟨out, hout, hr⟩ := h
      have hrr : r = Val1.list out := by cases hr; rfl
      refine ⟨out, hrr, fun _ => by simpa using mapM_ok_length _ _ _ hout,
        fun l' hl' => absurd hl' (by simp)⟩
  | pdict d =>
    simp only [get_new_positions, except_bind_ok] at h
    obtain ⟨nd1, h1, h⟩ := h
    obtain ⟨nd0, h0, h⟩ := h
    obtain ⟨out, hout, hr⟩ := h
    have hrr : r = Val1.list out := by cases hr; rfl
    refine ⟨out, hrr, fun _ => by simpa using mapM_ok_length _ _ _ hout,
      fun l' hl' => absurd hl' (by simp)⟩

unseal Rat.add Rat.sub Rat.mul Rat.inv in
/-- C7 (witness): the amended claim at concrete inputs, once for a scalar
and once for a two-element list. -/
theorem claim_C7_witness :
    (∃ out : List ℚ, Val1.list [(1:ℚ)/4] = Val1.list out
      ∧ (isListVal (Val1.num (1/2)) = false → out.length = 1)
      ∧ (∀ l : List ℚ, Val1.num (1/2) = Val1.prim (Prim.list l) →
          out.length = l.length))
    ∧ ∃ out : List ℚ, Val1.list [0, (1:ℚ)/4] = Val1.list out
      ∧ (isListVal (Val1.list [0, 1/2]) = false → out.length = 1)
      ∧ (∀ l : List ℚ, Val1.list [0, 1/2] = Val1.prim (Prim.list l) →
          out.length = l.length) :=
  ⟨claim_C7 [0, 1/2] [0, 1] (Val1.num (1/2)) (Val1.list [1/4]) (by decide),
   claim_C7 [0, 1/2] [0, 1] (Val1.list [0, 1/2]) (Val1.list [0, 1/4]) (by decide)⟩

/-! ## Claim C4 -/

unseal Rat.add Rat.sub Rat.mul Rat.inv in
/-- C4 (counterexample): resizing along `x` only, with the object's domain
holding both `x` and `y` ranges, drops the `y` entry from the object's
domain instead of leaving it unchanged: `obj.update({"domain": domain_update})`
replaces the whole domain dict. -/
theorem claim_C4_counterexample :
    resize_domain
      [("domain", Val1.pdict
        [("x", Prim.list [0, 1/2]), ("y", Prim.list [(1:ℚ)/4, 3/4])])]
      [("x", [0, 1/2])]
    = Except.ok [("domain", Val1.pdict [("x", Prim.list [0, 1/4])])] := by
  decide

/-- C4 (amended): with a `DomainBox` supplying only `x` and an object whose
domain holds both `x` and `y` ranges (and whose `x` range remaps
successfully), `resize_domain` rewrites the object's domain along `x` but
replaces the domain dict wholesale, so the `y` entry is dropped from the
object's domain rather than preserved. -/
theorem claim_C4 (obj : Obj) (box : DomBox) (ndx : List ℚ) (dd : PDict)
    (ox oy : Prim) (px : Prim)
    (hx : dbTruthy box "x" = some ndx) (hy : dbTruthy box "y" = none)
    (hdom : aget? obj "domain" = some (Val1.pdict dd))
    (hox : aget? dd "x" = some ox) (hoy : aget? dd "y" = some oy)
    (hgnp : get_new_positions ndx (Val1.prim ox) [0, 1]
      = Except.ok (Val1.prim px)) :
    resize_domain obj box
      = Except.ok (aset obj "domain" (Val1.pdict [("x", px)]))
    ∧ aget? [("x", px)] "y" = none := by
  constructor
  · rw [resize_domain]
    rw [hx, hy]
    simp only [agetE, hdom, asPDict, hox, hoy, Bind.bind, Except.bind]
    rw [resize_domain_try]
    simp only [Bind.bind, Except.bind, hgnp]
    simp [aset, List.isEmpty, Pure.pure, Except.pure]
  · simp [aget?]

unseal Rat.add Rat.sub Rat.mul Rat.inv in
/-- C4 (witness): the amended claim at a concrete input. -/
theorem claim_C4_witness :
    resize_domain
      [("domain", Val1.pdict
        [("x", Prim.list [0, 1/2]), ("y", Prim.list [(1:ℚ)/4, 3/4])])]
      [("x", [0, 1/2])]
      = Except.ok (aset
          [("domain", Val1.pdict
            [("x", Prim.list [0, 1/2]), ("y", Prim.list [(1:ℚ)/4, 3/4])])]
          "domain" (Val1.pdict [("x", Prim.list [0, (1:ℚ)/4])]))
    ∧ aget? [("x", Prim.list [0, (1:ℚ)/4])] "y" = none :=
  claim_C4
    [("domain", Val1.pdict
      [("x", Prim.list [0, 1/2]), ("y", Prim.list [(1:ℚ)/4, 3/4])])]
    [("x", [0, 1/2])] [0, 1/2]
    [("x", Prim.list [0, 1/2]), ("y", Prim.list [(1:ℚ)/4, 3/4])]
    (Prim.list [0, 1/2]) (Prim.list [(1:ℚ)/4, 3/4])
    (Prim.list [0, (1:ℚ)/4])
    (by decide) (by decide) (by decide) (by decide) (by decide) (by decide)

/-! ## Association-list lemmas -/

theorem aget?_aset_self {α : Type} (d : List (String × α)) (k : String) (v : α) :
    aget? (aset d k v) k = some v := by
  induction d with
  | nil => simp [aset, aget?]
  | cons p rest ih =>
    obtain ⟨k1, v1⟩ := p
    by_cases h : k1 = k
    · simp [aset, h, aget?]
    · simp [aset, h, aget?, ih]

theorem aget?_aset_ne {α : Type} (d : List (String × α)) (k : String) (v : α)
    (k' : String) (h : k ≠ k') : aget? (aset d k v) k' = aget? d k' := by
  induction d with
  | nil => simp [aset, aget?, h]
  | cons p rest ih =>
    obtain ⟨k1, v1⟩ := p
    by_cases hp : k1 = k
    · subst hp
      simp [aset, aget?, h]
    · by_cases hp' : k1 = k'
      · simp [aset, hp, aget?, hp', Ne.symm h]
      · simp [aset, hp, aget?, hp', ih]

theorem mem_akeys_iff_aget? {α : Type} (d : List (String × α)) (k : String) :
    k ∈ akeys d ↔ (aget? d k).isSome := by
  induction d with
  | nil => simp [akeys, aget?]
  | cons p rest ih =>
    obtain ⟨k1, v1⟩ := p
    rw [akeys, List.map_cons, List.mem_cons]
    by_cases h : k1 = k
    · simp [aget?, h]
    · simp only [aget?, h, if_false]
      rw [← ih]
      simp [akeys, Ne.symm h]

theorem akeys_aset_mem {α : Type} (d : List (String × α)) (k : String) (v : α)
    (h : (aget? d k).isSome) : akeys (aset d k v) = akeys d := by
  induction d with
  | nil => simp [aget?] at h
  | cons p rest ih =>
    obtain ⟨k1, v1⟩ := p
    by_cases hp : k1 = k
    · simp [aset, hp, akeys]
    · simp only [aget?, hp, if_false] at h
      simp only [aset, hp, if_false, akeys, List.map_cons]
      rw [show List.map Prod.fst (aset rest k v) = akeys (aset rest k v) from rfl,
        ih h]
      rfl

theorem akeys_aset_not_mem {α : Type} (d : List (String × α)) (k : String) (v : α)
    (h : aget? d k = none) : akeys (aset d k v) = akeys d ++ [k] := by
  induction d with
  | nil => simp [aset, akeys]
  | cons p rest ih =>
    obtain ⟨k1, v1⟩ := p
    by_cases hp : k1 = k
    · simp [aget?, hp] at h
    · simp only [aget?, hp, if_false] at h
      simp only [aset, hp, if_false, akeys, List.map_cons]
      rw [show List.map Prod.fst (aset rest k v) = akeys (aset rest k v) from rfl,
        ih h]
      rfl

theorem apop_eq_none_iff {α : Type} (d : List (String × α)) (k : String) :
    apop d k = none ↔ aget? d k = none := by
  induction d with
  | nil => simp [apop, aget?]
  | cons p rest ih =>
    obtain ⟨k1, v1⟩ := p
    by_cases h : k1 = k
    · simp [apop, aget?, h]
    · simp [apop, aget?, h, ih, Option.map_eq_none]

theorem apop_some_get {α : Type} (d : List (String × α)) (k : String) (v : α)
    (d' : List (String × α)) (h : apop d k = some (v, d')) :
    aget? d k = some v := by
  induction d generalizing d' with
  | nil => simp [apop] at h
  | cons p rest ih =>
    obtain ⟨k1, v1⟩ := p
    by_cases hp : k1 = k
    · simp only [apop, hp, if_true, Option.some.injEq, Prod.mk.injEq] at h
      simp [aget?, hp, h.1]
    · simp only [apop, hp, if_false] at h
      cases hpop : apop rest k with
      | none => rw [hpop] at h; simp at h
      | some p2 =>
        obtain ⟨q, d2⟩ := p2
        rw [hpop] at h
        simp only [Option.map, Option.some.injEq, Prod.mk.injEq] at h
        obtain ⟨hqv, _⟩ := h
        subst hqv
        simp [aget?, hp, ih d2 hpop]

theorem aget?_apop_ne {α : Type} (d : List (String × α)) (k : String) (v : α)
    (d' : List (String × α)) (k' : String) (h : apop d k = some (v, d'))
    (hne : k' ≠ k) : aget? d' k' = aget? d k' := by
  induction d generalizing d' with
  | nil => simp [apop] at h
  | cons p rest ih =>
    obtain ⟨k1, v1⟩ := p
    by_cases hp : k1 = k
    · simp only [apop, hp, if_true, Option.some.injEq, Prod.mk.injEq] at h
      subst hp
      rw [← h.2]
      simp [aget?, Ne.symm hne]
    · simp only [apop, hp, if_false] at h
      cases hpop : apop rest k with
      | none => rw [hpop] at h; simp at h
      | some p2 =>
        obtain ⟨q, d2⟩ := p2
        rw [hpop] at h
        simp only [Option.map, Option.some.injEq, Prod.mk.injEq] at h
        obtain ⟨hqv, hd⟩ := h
        subst hqv
        rw [← hd]
        by_cases hp' : k1 = k'
        · simp [aget?, hp']
        · simp [aget?, hp', ih d2 hpop]

theorem akeys_apop {α : Type} (d : List (String × α)) (k : String) (v : α)
    (d' : List (String × α)) (h : apop d k = some (v, d')) :
    akeys d' = (akeys d).erase k := by
  induction d generalizing d' with
  | nil => simp [apop] at h
  | cons p rest ih =>
    obtain ⟨k1, v1⟩ := p
    by_cases hp : k1 = k
    · simp only [apop, hp, if_true, Option.some.injEq, Prod.mk.injEq] at h
      simp [akeys, List.erase_cons, hp, ← h.2]
    · simp only [apop, hp, if_false] at h
      cases hpop : apop rest k with
      | none => rw [hpop] at h; simp at h
      | some p2 =>
        obtain ⟨q, d2⟩ := p2
        rw [hpop] at h
        simp only [Option.map, Option.some.injEq, Prod.mk.injEq] at h
        obtain ⟨hqv, hd⟩ := h
        subst hqv
        rw [← hd]
        simp only [akeys, List.map_cons, List.erase_cons, hp, if_false]
        rw [show List.map Prod.fst d2 = akeys d2 from rfl, ih d2 hpop]
        simp [akeys, hp]

theorem aget?_apop_self {α : Type} (d : List (String × α)) (k : String) (v : α)
    (d' : List (String × α)) (hnd : (akeys d).Nodup)
    (h : apop d k = some (v, d')) : aget? d' k = none := by
  have hk : akeys d' = (akeys d).erase k := akeys_apop d k v d' h
  have hmem : k ∉ akeys d' := by
    rw [hk]
    exact List.Nodup.not_mem_erase hnd
  rw [mem_akeys_iff_aget?] at hmem
  cases hg : aget? d' k with
  | none => rfl
  | some w => rw [hg] at hmem; simp at hmem

theorem nodup_akeys_apop {α : Type} (d : List (String × α)) (k : String) (v : α)
    (d' : List (String × α)) (hnd : (akeys d).Nodup)
    (h : apop d k = some (v, d')) : (akeys d').Nodup := by
  rw [akeys_apop d k v d' h]
  exact hnd.erase k

theorem nodup_akeys_aset {α : Type} (d : List (String × α)) (k : String) (v : α)
    (hnd : (akeys d).Nodup) : (akeys (aset d k v)).Nodup := by
  cases hg : aget? d k with
  | some w => rw [akeys_aset_mem d k v (by simp [hg])]; exact hnd
  | none =>
    rw [akeys_aset_not_mem d k v hg]
    have : k ∉ akeys d := by
      rw [mem_akeys_iff_aget?, hg]; simp
    simp [List.nodup_append, hnd, this]

/-! ## Claim C1 -/

/-- C1 (code_bug evidence): `layer` with `which_layout = 0` and no domains
does not keep only the first figure's layout keys: the guard
`not which_layout or which_layout == i` treats the index `0` like `None`
because `not 0` is truthy in Python, so every argument's layout is merged.
Here the second figure's private key `"foo"` appears in the result. -/
theorem claim_C1 :
    layer [LayerArg.fig ⟨[], [("title", LVal.str "A")]⟩,
           LayerArg.fig ⟨[], [("foo", LVal.str "B")]⟩]
      (some 0) none default_callback
    = Except.ok ⟨⟨[], [("title", LVal.str "A"), ("foo", LVal.str "B")]⟩,
        [], false, false, true⟩
    ∧ amem [("title", LVal.str "A"), ("foo", LVal.str "B")] "foo" = true
    ∧ amem [("title", LVal.str "A")] "foo" = false := by
  decide

/-! ## Claim C9 -/

/-- C9: `layer()` with zero figures raises `ValueError` before producing any
output, and `layer` on a `DeephavenFigure` whose `has_subplots` flag is true
raises `NotImplementedError` before producing any output, for every
`which_layout`, `domains` and update callback. -/
theorem claim_C9 :
    (∀ (wl : Option ℕ) (doms : Option (List DomBox)) (upd : Fig → Fig),
      layer [] wl doms upd
        = Except.error (PyErr.valueError "No figures provided to compose"))
    ∧ ∀ (d : DeephavenFigure) (wl : Option ℕ) (doms : Option (List DomBox))
        (upd : Fig → Fig), d.has_subplots = true →
        layer [LayerArg.dh d] wl doms upd
          = Except.error (PyErr.notImplementedError
              "Cannot currently add figure with subplots as a subplot") := by
  constructor
  · intro wl doms upd
    simp [layer]
  · intro d wl doms upd hsub
    simp [layer, layerLoop, hsub, Bind.bind, Except.bind]

/-- C9 (witness): the rejection behaviors at concrete inputs. -/
theorem claim_C9_witness :
    layer [] none none default_callback
      = Except.error (PyErr.valueError "No figures provided to compose")
    ∧ layer [LayerArg.dh ⟨⟨[], []⟩, [], false, false, true⟩] none none
        default_callback
      = Except.error (PyErr.notImplementedError
          "Cannot currently add figure with subplots as a subplot") :=
  ⟨claim_C9.1 none none default_callback,
   claim_C9.2 ⟨⟨[], []⟩, [], false, false, true⟩ none none default_callback rfl⟩

/-! ## Claim C10 -/

/-- A present key can be popped. -/
theorem apop_isSome {α : Type} (d : List (String × α)) (k : String)
    (h : (aget? d k).isSome) : ∃ v d', apop d k = some (v, d') := by
  cases hp : apop d k with
  | none => rw [apop_eq_none_iff] at hp; rw [hp] at h; simp at h
  | some p => exact ⟨p.1, p.2, by simp [hp]⟩

/-- Strings with equal character lists are equal. -/
theorem string_eq_of_data {a b : String} (h : a.data = b.data) : a = b := by
  cases a
  cases b
  exact congrArg String.mk h

/-- Right cancellation for string append. -/
theorem str_append_right_cancel {a b s : String} (h : a ++ s = b ++ s) :
    a = b := by
  have hd := congrArg String.data h
  simp only [String.data_append] at hd
  exact string_eq_of_data (List.append_cancel_right hd)

/-- The state of `remap_scene_args`'s loop when every name it still has to
process is present: no exception, each name is removed and re-added under
its `_scene` form with the same value, and every key that is neither a
pending name nor a pending `_scene` form keeps its value. -/
theorem remapSceneLoop_all (names : List String) : ∀ (args : PyDict),
    (akeys args).Nodup → names.Nodup →
    (∀ n ∈ names, (aget? args n).isSome) →
    (∀ n ∈ names, ∀ m ∈ names, ¬ (m ++ "_scene" = n)) →
    (remapSceneLoop names args).2 = none
    ∧ (∀ n ∈ names, aget? (remapSceneLoop names args).1 n = none
        ∧ aget? (remapSceneLoop names args).1 (n ++ "_scene") = aget? args n)
    ∧ (∀ k, k ∉ names → (∀ n ∈ names, k ≠ n ++ "_scene") →
        aget? (remapSceneLoop names args).1 k = aget? args k) := by
  induction names with
  | nil => intro args _ _ _ _; exact ⟨rfl, by simp, by simp [remapSceneLoop]⟩
  | cons n names' ih =>
    intro args hnd hnodup hpres hsafe
    obtain ⟨v, args1, hpop⟩ := apop_isSome args n (hpres n (by simp))
    have hstep : remapSceneLoop (n :: names') args
        = remapSceneLoop names' (aset args1 (n ++ "_scene") v) := by
      simp [remapSceneLoop, hpop]
    set args2 := aset args1 (n ++ "_scene") v with hargs2
    have hnd1 : (akeys args1).Nodup := nodup_akeys_apop args n v args1 hnd hpop
    have hnd2 : (akeys args2).Nodup := nodup_akeys_aset args1 (n ++ "_scene") v hnd1
    have hnmem : n ∉ names' := (List.nodup_cons.mp hnodup).1
    have hnodup' : names'.Nodup := (List.nodup_cons.mp hnodup).2
    have hne_scene : ∀ m ∈ names', n ++ "_scene" ≠ m := by
      intro m hm h
      exact hsafe m (by simp [hm]) n (by simp) h
    have hpres2 : ∀ m ∈ names', (aget? args2 m).isSome := by
      intro m hm
      rw [hargs2, aget?_aset_ne args1 _ v m (hne_scene m hm),
        aget?_apop_ne args n v args1 m hpop (fun hc => hnmem (hc ▸ hm))]
      exact hpres m (by simp [hm])
    have hsafe' : ∀ a ∈ names', ∀ b ∈ names', ¬ (b ++ "_scene" = a) := by
      intro a ha b hb
      exact hsafe a (by simp [ha]) b (by simp [hb])
    obtain ⟨herr, hren, hframe⟩ := ih args2 hnd2 hnodup' hpres2 hsafe'
    have hget2 : ∀ m ∈ names', aget? args2 m = aget? args m := by
      intro m hm
      rw [hargs2, aget?_aset_ne args1 _ v m (hne_scene m hm),
        aget?_apop_ne args n v args1 m hpop (fun hc => hnmem (hc ▸ hm))]
    refine ⟨by rw [hstep]; exact herr, ?_, ?_⟩
    · intro m hm
      rcases List.mem_cons.mp hm with hmn | hm'
      · subst hmn
        constructor
        · rw [hstep]
          rw [hframe m hnmem (fun a ha => fun hc =>
            hsafe m (by simp) a (by simp [ha]) hc.symm)]
          rw [hargs2, aget?_aset_ne args1 _ v m
            (fun hc => hsafe m (by simp) m (by simp) hc)]
          exact aget?_apop_self args m v args1 hnd hpop
        · rw [hstep]
          have hsc_notmem : (m ++ "_scene") ∉ names' := by
            intro hc
            exact hsafe (m ++ "_scene") (by simp [hc]) m (by simp) rfl
          rw [hframe (m ++ "_scene") hsc_notmem (fun a ha => fun hc =>
            (fun hma : m = a => hnmem (hma ▸ ha)) (str_append_right_cancel hc))]
          rw [hargs2, aget?_aset_self]
          exact (apop_some_get args m v args1 hpop).symm
      · rcases hren m hm' with ⟨h1, h2⟩
        exact ⟨by rw [hstep]; exact h1,
          by rw [hstep, h2]; exact hget2 m hm'⟩
    · intro k hk hksc
      have hk' : k ∉ names' := fun hc => hk (by simp [hc])
      have hksc' : ∀ a ∈ names', k ≠ a ++ "_scene" := fun a ha =>
        hksc a (by simp [ha])
      rw [hstep, hframe k hk' hksc']
      rw [hargs2, aget?_aset_ne args1 _ v k
        (fun hc => hksc n (by simp) hc.symm)]
      exact aget?_apop_ne args n v args1 k hpop
        (fun hc => hk (by simp [hc]))

/-- The state of the loop of `remap_scene_args` when the first missing name
is `miss`: the names before it have already been renamed when the `KeyError`
is raised, and every key that is neither a processed name nor a processed
`_scene` form keeps its value (the failing pop does not modify the dict). -/
theorem remapSceneLoop_missing (done : List String) :
    ∀ (miss : String) (rest : List String) (args : PyDict),
    (akeys args).Nodup → done.Nodup → miss ∉ done →
    (∀ n ∈ done, (aget? args n).isSome) →
    aget? args miss = none →
    (∀ n ∈ done, ∀ m ∈ done, ¬ (m ++ "_scene" = n)) →
    (∀ n ∈ done, ¬ (n ++ "_scene" = miss)) →
    (remapSceneLoop (done ++ miss :: rest) args).2
        = some (PyErr.keyError miss)
    ∧ (∀ n ∈ done,
        aget? (remapSceneLoop (done ++ miss :: rest) args).1 n = none
        ∧ aget? (remapSceneLoop (done ++ miss :: rest) args).1 (n ++ "_scene")
            = aget? args n)
    ∧ (∀ k, k ∉ done → (∀ n ∈ done, k ≠ n ++ "_scene") →
        aget? (remapSceneLoop (done ++ miss :: rest) args).1 k
          = aget? args k) := by
  induction done with
  | nil =>
    intro miss rest args _ _ _ _ hmiss _ _
    have hp : apop args miss = none := (apop_eq_none_iff args miss).mpr hmiss
    exact ⟨by simp [remapSceneLoop, hp], by simp,
      by intro k _ _; simp [remapSceneLoop, hp]⟩
  | cons n done' ih =>
    intro miss rest args hnd hnodup hmissmem hpres hmiss hsafe hsafemiss
    obtain ⟨v, args1, hpop⟩ := apop_isSome args n (hpres n (by simp))
    have hstep : remapSceneLoop ((n :: done') ++ miss :: rest) args
        = remapSceneLoop (done' ++ miss :: rest) (aset args1 (n ++ "_scene") v) := by
      simp [remapSceneLoop, hpop]
    set args2 := aset args1 (n ++ "_scene") v with hargs2
    have hnd1 : (akeys args1).Nodup := nodup_akeys_apop args n v args1 hnd hpop
    have hnd2 : (akeys args2).Nodup := nodup_akeys_aset args1 (n ++ "_scene") v hnd1
    have hnmem : n ∉ done' := (List.nodup_cons.mp hnodup).1
    have hnodup' : done'.Nodup := (List.nodup_cons.mp hnodup).2
    have hmiss_ne_n : miss ≠ n := fun hc => hmissmem (by simp [hc])
    have hne_scene : ∀ m ∈ done', n ++ "_scene" ≠ m := by
      intro m hm h
      exact hsafe m (by simp [hm]) n (by simp) h
    have hget2 : ∀ m ∈ done', aget? args2 m = aget? args m := by
      intro m hm
      rw [hargs2, aget?_aset_ne args1 _ v m (hne_scene m hm),
        aget?_apop_ne args n v args1 m hpop (fun hc => hnmem (hc ▸ hm))]
    have hpres2 : ∀ m ∈ done', (aget? args2 m).isSome := by
      intro m hm
      rw [hget2 m hm]
      exact hpres m (by simp [hm])
    have hmiss2 : aget? args2 miss = none := by
      rw [hargs2, aget?_aset_ne args1 _ v miss
        (fun hc => hsafemiss n (by simp) hc),
        aget?_apop_ne args n v args1 miss hpop hmiss_ne_n]
      exact hmiss
    have hsafe' : ∀ a ∈ done', ∀ b ∈ done', ¬ (b ++ "_scene" = a) := by
      intro a ha b hb
      exact hsafe a (by simp [ha]) b (by simp [hb])
    have hsafemiss' : ∀ a ∈ done', ¬ (a ++ "_scene" = miss) := by
      intro a ha
      exact hsafemiss a (by simp [ha])
    obtain ⟨herr, hren, hframe⟩ := ih miss rest args2 hnd2 hnodup'
      (fun hc => hmissmem (by simp [hc])) hpres2 hmiss2 hsafe' hsafemiss'
    refine ⟨by rw [hstep]; exact herr, ?_, ?_⟩
    · intro m hm
      rcases List.mem_cons.mp hm with hmn | hm'
      · subst hmn
        constructor
        · rw [hstep]
          rw [hframe m hnmem (fun a ha => fun hc =>
            hsafe m (by simp) a (by simp [ha]) hc.symm)]
          rw [hargs2, aget?_aset_ne args1 _ v m
            (fun hc => hsafe m (by simp) m (by simp) hc)]
          exact aget?_apop_self args m v args1 hnd hpop
        · rw [hstep]
          have hsc_notmem : (m ++ "_scene") ∉ done' := by
            intro hc
            exact hsafe (m ++ "_scene") (by simp [hc]) m (by simp) rfl
          rw [hframe (m ++ "_scene") hsc_notmem (fun a ha => fun hc =>
            (fun hma : m = a => hnmem (hma ▸ ha)) (str_append_right_cancel hc))]
          rw [hargs2, aget?_aset_self]
          exact (apop_some_get args m v args1 hpop).symm
      · rcases hren m hm' with ⟨h1, h2⟩
        exact ⟨by rw [hstep]; exact h1,
          by rw [hstep, h2]; exact hget2 m hm'⟩
    · intro k hk hksc
      have hk' : k ∉ done' := fun hc => hk (by simp [hc])
      have hksc' : ∀ a ∈ done', k ≠ a ++ "_scene" := fun a ha =>
        hksc a (by simp [ha])
      rw [hstep, hframe k hk' hksc']
      rw [hargs2, aget?_aset_ne args1 _ v k
        (fun hc => hksc n (by simp) hc.symm)]
      exact aget?_apop_ne args n v args1 k hpop
        (fun hc => hk (by simp [hc]))

/-- C10 (counterexample): even with all six names present the operation does
not leave every other entry unchanged: a pre-existing `range_x_scene` entry
is overwritten by the renamed `range_x` value. -/
theorem claim_C10_counterexample :
    aget? [("range_x_scene", LVal.str "OLD"), ("range_x", LVal.str "a"),
      ("range_y", LVal.str "b"), ("range_z", LVal.str "c"),
      ("log_x", LVal.str "d"), ("log_y", LVal.str "e"),
      ("log_z", LVal.str "f")] "range_x_scene" = some (LVal.str "OLD")
    ∧ (remap_scene_args [("range_x_scene", LVal.str "OLD"),
        ("range_x", LVal.str "a"), ("range_y", LVal.str "b"),
        ("range_z", LVal.str "c"), ("log_x", LVal.str "d"),
        ("log_y", LVal.str "e"), ("log_z", LVal.str "f")]).2 = none
    ∧ aget? (remap_scene_args [("range_x_scene", LVal.str "OLD"),
        ("range_x", LVal.str "a"), ("range_y", LVal.str "b"),
        ("range_z", LVal.str "c"), ("log_x", LVal.str "d"),
        ("log_y", LVal.str "e"), ("log_z", LVal.str "f")]).1 "range_x_scene"
      = some (LVal.str "a") := by
  decide

/-- C10 (amended): `remap_scene_args` succeeds exactly on dicts containing
all six names `range_x`, `range_y`, `range_z`, `log_x`, `log_y`, `log_z`:
when all are present, each is removed and re-added under the name with
`_scene` appended, with the same value, and every entry whose key is neither
one of the six nor one of the six `_scene` forms is unchanged (a
pre-existing `_scene` entry is overwritten); when one is absent, the first
missing name raises `KeyError` and the names processed before it have
already been renamed (the operation is not atomic on error). -/
theorem claim_C10 :
    (∀ args : PyDict, (akeys args).Nodup →
      (∀ n ∈ scene_arg_names, (aget? args n).isSome) →
      (remap_scene_args args).2 = none
      ∧ (∀ n ∈ scene_arg_names, aget? (remap_scene_args args).1 n = none
          ∧ aget? (remap_scene_args args).1 (n ++ "_scene") = aget? args n)
      ∧ (∀ k, k ∉ scene_arg_names →
          (∀ n ∈ scene_arg_names, k ≠ n ++ "_scene") →
          aget? (remap_scene_args args).1 k = aget? args k))
    ∧ ∀ (args : PyDict) (done : List String) (miss : String)
        (rest : List String),
        scene_arg_names = done ++ miss :: rest →
        (akeys args).Nodup →
        (∀ n ∈ done, (aget? args n).isSome) →
        aget? args miss = none →
        (remap_scene_args args).2 = some (PyErr.keyError miss)
        ∧ (∀ n ∈ done, aget? (remap_scene_args args).1 n = none
            ∧ aget? (remap_scene_args args).1 (n ++ "_scene")
                = aget? args n) := by
  constructor
  · intro args hnd hpres
    exact remapSceneLoop_all scene_arg_names args hnd (by decide) hpres (by decide)
  · intro args done miss rest heq hnd hpres hmiss
    have hglob : ∀ n ∈ scene_arg_names, ∀ m ∈ scene_arg_names,
        ¬ (m ++ "_scene" = n) := by decide
    have h6 : (done ++ miss :: rest).Nodup := by
      rw [← heq]; decide
    have hd : done.Nodup := (List.nodup_append.mp h6).1
    have hdisj : ∀ a ∈ done, a ∉ miss :: rest :=
      fun a ha hb => (List.nodup_append.mp h6).2.2 ha hb
    have hmm : miss ∉ done := fun hc => hdisj miss hc (by simp)
    have hsub : ∀ n ∈ done, n ∈ scene_arg_names := by
      intro n hn; rw [heq]; exact List.mem_append_left _ hn
    have hmiss6 : miss ∈ scene_arg_names := by
      rw [heq]; exact List.mem_append_right _ (by simp)
    have hsafe : ∀ n ∈ done, ∀ m ∈ done, ¬ (m ++ "_scene" = n) :=
      fun n hn m hm => hglob n (hsub n hn) m (hsub m hm)
    have hsafemiss : ∀ n ∈ done, ¬ (n ++ "_scene" = miss) :=
      fun n hn => hglob miss hmiss6 n (hsub n hn)
    have := remapSceneLoop_missing done miss rest args hnd hd hmm hpres
      hmiss hsafe hsafemiss
    rw [remap_scene_args, heq]
    exact ⟨this.1, this.2.1⟩

/-- C10 (witness): the amended claim at concrete inputs - one dict with all
six names (plus a seventh entry that survives), one dict missing `range_y`
where `range_x` has already been renamed when the `KeyError` is raised. -/
theorem claim_C10_witness :
    (remap_scene_args [("range_x", LVal.str "a"), ("range_y", LVal.str "b"),
        ("range_z", LVal.str "c"), ("log_x", LVal.str "d"),
        ("log_y", LVal.str "e"), ("log_z", LVal.str "f"),
        ("other", LVal.str "keep")]).2 = none
    ∧ aget? (remap_scene_args [("range_x", LVal.str "a"),
        ("range_y", LVal.str "b"), ("range_z", LVal.str "c"),
        ("log_x", LVal.str "d"), ("log_y", LVal.str "e"),
        ("log_z", LVal.str "f"), ("other", LVal.str "keep")]).1 "range_x"
      = none
    ∧ aget? (remap_scene_args [("range_x", LVal.str "a"),
        ("range_y", LVal.str "b"), ("range_z", LVal.str "c"),
        ("log_x", LVal.str "d"), ("log_y", LVal.str "e"),
        ("log_z", LVal.str "f"), ("other", LVal.str "keep")]).1
        ("range_x" ++ "_scene")
      = aget? [("range_x", LVal.str "a"), ("range_y", LVal.str "b"),
        ("range_z", LVal.str "c"), ("log_x", LVal.str "d"),
        ("log_y", LVal.str "e"), ("log_z", LVal.str "f"),
        ("other", LVal.str "keep")] "range_x"
    ∧ aget? (remap_scene_args [("range_x", LVal.str "a"),
        ("range_y", LVal.str "b"), ("range_z", LVal.str "c"),
        ("log_x", LVal.str "d"), ("log_y", LVal.str "e"),
        ("log_z", LVal.str "f"), ("other", LVal.str "keep")]).1 "other"
      = aget? [("range_x", LVal.str "a"), ("range_y", LVal.str "b"),
        ("range_z", LVal.str "c"), ("log_x", LVal.str "d"),
        ("log_y", LVal.str "e"), ("log_z", LVal.str "f"),
        ("other", LVal.str "keep")] "other"
    ∧ (remap_scene_args [("range_x", LVal.str "a"),
        ("range_z", LVal.str "c"), ("log_x", LVal.str "d"),
        ("log_y", LVal.str "e"), ("log_z", LVal.str "f")]).2
      = some (PyErr.keyError "range_y")
    ∧ aget? (remap_scene_args [("range_x", LVal.str "a"),
        ("range_z", LVal.str "c"), ("log_x", LVal.str "d"),
        ("log_y", LVal.str "e"), ("log_z", LVal.str "f")]).1
        ("range_x" ++ "_scene")
      = aget? [("range_x", LVal.str "a"), ("range_z", LVal.str "c"),
        ("log_x", LVal.str "d"), ("log_y", LVal.str "e"),
        ("log_z", LVal.str "f")] "range_x" := by
  obtain ⟨h1, h2, h3⟩ := claim_C10.1
    [("range_x", LVal.str "a"), ("range_y", LVal.str "b"),
     ("range_z", LVal.str "c"), ("log_x", LVal.str "d"),
     ("log_y", LVal.str "e"), ("log_z", LVal.str "f"),
     ("other", LVal.str "keep")] (by decide) (by decide)
  obtain ⟨h4, h5⟩ := claim_C10.2
    [("range_x", LVal.str "a"), ("range_z", LVal.str "c"),
     ("log_x", LVal.str "d"), ("log_y", LVal.str "e"),
     ("log_z", LVal.str "f")]
    ["range_x"] "range_y" ["range_z", "log_x", "log_y", "log_z"]
    (by decide) (by decide) (by decide) (by decide)
  exact ⟨h1, (h2 "range_x" (by decide)).1, (h2 "range_x" (by decide)).2,
    h3 "other" (by decide) (by decide), h4,
    (h5 "range_x" (by decide)).2⟩

/-! ## Claim C8 -/

/-- The `layer` loop over `DeephavenFigure` arguments without domains: it
always succeeds (when no input has subplots) and appends each input's data
mappings shifted by the trace count accumulated so far. -/
theorem layerLoop_dh_mappings (wl : Option ℕ) :
    ∀ (ds : List DeephavenFigure) (i : ℕ) (acc : LayerAcc),
    (∀ d ∈ ds, d.has_subplots = false) →
    ∃ acc', layerLoop wl none (ds.map LayerArg.dh) i acc = Except.ok acc'
      ∧ acc'.new_data_mappings = acc.new_data_mappings
          ++ expectedMappings acc.new_data.length ds := by
  intro ds
  induction ds with
  | nil =>
    intro i acc _
    exact ⟨acc, rfl, by simp [expectedMappings]⟩
  | cons d rest ih =>
    intro i acc hsub
    have hd : d.has_subplots = false := hsub d (by simp)
    have hstep : layerLoop wl none (List.map LayerArg.dh (d :: rest)) i acc
        = layerLoop wl none (List.map LayerArg.dh rest) (i + 1)
          { new_data := acc.new_data ++ d.fig.data,
            new_layout := aupdate acc.new_layout
              (if pyNotWhichLayout wl || wl == some i then d.fig.layout else []),
            new_data_mappings := acc.new_data_mappings
              ++ copy_mappings d.data_mappings acc.new_data.length,
            new_has_template := d.has_template || acc.new_has_template,
            new_has_color := d.has_color || acc.new_has_color,
            axes := acc.axes } := by
      simp [layerLoop, hd, fig_data_and_layout, domainsTruthy,
        Bind.bind, Except.bind]
    obtain ⟨acc', hok, hmap⟩ := ih (i + 1)
      { new_data := acc.new_data ++ d.fig.data,
        new_layout := aupdate acc.new_layout
          (if pyNotWhichLayout wl || wl == some i then d.fig.layout else []),
        new_data_mappings := acc.new_data_mappings
          ++ copy_mappings d.data_mappings acc.new_data.length,
        new_has_template := d.has_template || acc.new_has_template,
        new_has_color := d.has_color || acc.new_has_color,
        axes := acc.axes }
      (fun d' hd' => hsub d' (by simp [hd']))
    refine ⟨acc', by rw [hstep]; exact hok, ?_⟩
    rw [hmap]
    simp [expectedMappings, List.length_append, List.append_assoc]

/-- C8: composing `DeephavenFigure` inputs (no domains), each input's data
mappings are offset by exactly the number of traces accumulated before that
input is appended. -/
theorem claim_C8 (ds : List DeephavenFigure) (wl : Option ℕ)
    (hne : ds ≠ [])
    (hsub : ∀ d ∈ ds, d.has_subplots = false) :
    ∃ res, layer (ds.map LayerArg.dh) wl none default_callback = Except.ok res
      ∧ res.data_mappings = expectedMappings 0 ds := by
  obtain ⟨acc', hok, hmap⟩ := layerLoop_dh_mappings wl ds 0
    ⟨[], [], [], false, false, initAxesStart⟩ hsub
  have hlen : (ds.map LayerArg.dh).length ≠ 0 := by
    simp only [List.length_map]
    exact fun h => hne (List.length_eq_zero.mp h)
  refine ⟨⟨default_callback ⟨acc'.new_data, acc'.new_layout⟩,
    acc'.new_data_mappings, acc'.new_has_template, acc'.new_has_color,
    true⟩, ?_, ?_⟩
  · simp only [layer, if_neg hlen, Bind.bind, Except.bind, hok]
  · simpa using hmap

/-- C8 (witness): two composite figures with 3 and 2 traces; the second
figure's mapping indices are shifted by exactly 3, the first by 0. -/
theorem claim_C8_witness :
    layer ([⟨⟨[[], [], []], []⟩, [⟨[0]⟩, ⟨[1, 2]⟩], false, false, false⟩,
            ⟨⟨[[], []], []⟩, [⟨[0, 1]⟩], true, false, false⟩].map LayerArg.dh)
        none none default_callback
      = Except.ok ⟨⟨[[], [], [], [], []], []⟩,
          [⟨[0]⟩, ⟨[1, 2]⟩, ⟨[3, 4]⟩], true, false, true⟩
    ∧ expectedMappings 0
        [⟨⟨[[], [], []], []⟩, [⟨[0]⟩, ⟨[1, 2]⟩], false, false, false⟩,
         ⟨⟨[[], []], []⟩, [⟨[0, 1]⟩], true, false, false⟩]
      = [⟨[0]⟩, ⟨[1, 2]⟩, ⟨[3, 4]⟩] := by
  obtain ⟨res, hok, hmap⟩ := claim_C8
    [⟨⟨[[], [], []], []⟩, [⟨[0]⟩, ⟨[1, 2]⟩], false, false, false⟩,
     ⟨⟨[[], []], []⟩, [⟨[0, 1]⟩], true, false, false⟩]
    none (by decide) (by decide)
  have hconc : layer
      ([⟨⟨[[], [], []], []⟩, [⟨[0]⟩, ⟨[1, 2]⟩], false, false, false⟩,
        ⟨⟨[[], []], []⟩, [⟨[0, 1]⟩], true, false, false⟩].map LayerArg.dh)
      none none default_callback
      = Except.ok ⟨⟨[[], [], [], [], []], []⟩,
          [⟨[0]⟩, ⟨[1, 2]⟩, ⟨[3, 4]⟩], true, false, true⟩ := by decide
  exact ⟨hconc, by decide⟩

/-! ## Decimal-rendering lemmas -/

/-- `charDigit` inverts `pyDigitChar` on digits. -/
theorem charDigit_pyDigitChar (d : ℕ) (h : d < 10) :
    charDigit (pyDigitChar d) = d := by
  interval_cases d <;> rfl

/-- Every digit produced by `digitsAux` is below 10. -/
theorem digitsAux_lt (fuel : ℕ) : ∀ (n : ℕ) (d : ℕ),
    d ∈ digitsAux fuel n → d < 10 := by
  induction fuel with
  | zero => intro n d h; simp [digitsAux] at h
  | succ fuel ih =>
    intro n d h
    by_cases hn : n = 0
    · simp [digitsAux, hn] at h
    · simp only [digitsAux, hn, if_false, List.mem_cons] at h
      rcases h with h | h
      · rw [h]; exact Nat.mod_lt _ (by norm_num)
      · exact ih _ d h

/-- `digitsVal` inverts `digitsAux` when the fuel suffices. -/
theorem digitsVal_digitsAux (fuel : ℕ) : ∀ n : ℕ, n ≤ fuel →
    digitsVal (digitsAux fuel n) = n := by
  induction fuel with
  | zero => intro n h; interval_cases n; rfl
  | succ fuel ih =>
    intro n h
    by_cases hn : n = 0
    · simp [digitsAux, hn, digitsVal]
    · have hdiv : n / 10 < n := Nat.div_lt_self (Nat.pos_of_ne_zero hn) (by norm_num)
      have hfuel : n / 10 ≤ fuel := by omega
      simp only [digitsAux, hn, if_false, digitsVal, ih _ hfuel]
      exact Nat.mod_add_div n 10

/-- `strDecode` inverts `natDecStr`. -/
theorem strDecode_natDecStr (n : ℕ) : strDecode (natDecStr n) = n := by
  by_cases hn : n = 0
  · subst hn; rfl
  · simp only [natDecStr, hn, if_false, strDecode]
    rw [List.map_reverse, List.map_map]
    rw [show (List.map (charDigit ∘ pyDigitChar) (digitsAux n n).reverse)
        = List.map id (digitsAux n n).reverse from
      List.map_congr_left (fun d hd =>
        charDigit_pyDigitChar d (digitsAux_lt n n d (List.mem_reverse.mp hd)))]
    rw [List.map_id, List.reverse_reverse]
    exact digitsVal_digitsAux n n (le_refl n)

/-- `natDecStr` is injective. -/
theorem natDecStr_inj {m n : ℕ} (h : natDecStr m = natDecStr n) : m = n := by
  have := congrArg strDecode h
  rwa [strDecode_natDecStr, strDecode_natDecStr] at this

/-- `numStr` is injective on positive counters. -/
theorem numStr_inj {m n : ℕ} (hm : 1 ≤ m) (hn : 1 ≤ n)
    (h : numStr m = numStr n) : m = n := by
  by_cases h1 : m = 1 <;> by_cases h2 : n = 1
  · omega
  · exfalso
    rw [numStr, if_pos h1, numStr, if_neg h2] at h
    have := congrArg strDecode h.symm
    rw [strDecode_natDecStr] at this
    have h0 : strDecode "" = 0 := rfl
    omega
  · exfalso
    rw [numStr, if_neg h1, numStr, if_pos h2] at h
    have := congrArg strDecode h
    rw [strDecode_natDecStr] at this
    have h0 : strDecode "" = 0 := rfl
    omega
  · rw [numStr, if_neg h1, numStr, if_neg h2] at h
    exact natDecStr_inj h

/-! ## String and classification lemmas -/

/-- Rebuilding a string from its character list is the identity. -/
theorem string_mk_data (s : String) : String.mk s.data = s := by
  cases s
  rfl

/-- Left cancellation for string append. -/
theorem str_append_left_cancel {a b c : String} (h : a ++ b = a ++ c) :
    b = c := by
  have hd := congrArg String.data h
  simp only [String.data_append] at hd
  exact string_eq_of_data (List.append_cancel_left hd)

/-- Appending the empty string is the identity. -/
theorem str_append_empty (s : String) : s ++ "" = s := by
  apply string_eq_of_data
  simp [String.data_append]

/-- A list is a prefix of itself followed by anything. -/
theorem startsAux_self_append : ∀ (l t : List Char), startsAux l (l ++ t) = true := by
  intro l
  induction l with
  | nil => intro t; rfl
  | cons a as ih => intro t; simp [startsAux, ih]

/-- A key formed by appending anything to a family prefix classifies into
that family. -/
theorem classify_family_append (f : Family) (s : String) :
    classify (f.str ++ s) = some f := by
  have hx : ("xaxis" : String).data = ['x', 'a', 'x', 'i', 's'] := rfl
  have hy : ("yaxis" : String).data = ['y', 'a', 'x', 'i', 's'] := rfl
  have hs : ("scene" : String).data = ['s', 'c', 'e', 'n', 'e'] := rfl
  have hp : ("polar" : String).data = ['p', 'o', 'l', 'a', 'r'] := rfl
  have ht : ("ternary" : String).data = ['t', 'e', 'r', 'n', 'a', 'r', 'y'] := rfl
  cases f <;>
    simp [classify, Family.str, pyStartsWith, String.data_append,
      hx, hy, hs, hp, ht, startsAux, List.cons_append]

/-- The assigned key of a family classifies into that family. -/
theorem classify_keyOf (f : Family) (n : ℕ) : classify (keyOf f n) = some f :=
  classify_family_append f (numStr n)

/-- Assigned keys are injective in the family and the (positive) counter. -/
theorem keyOf_inj {f g : Family} {m n : ℕ} (hm : 1 ≤ m) (hn : 1 ≤ n)
    (h : keyOf f m = keyOf g n) : f = g ∧ m = n := by
  have hfg : f = g := by
    have h1 := classify_keyOf f m
    have h2 := classify_keyOf g n
    rw [h, h2] at h1
    exact (Option.some.inj h1).symm
  subst hfg
  exact ⟨rfl, numStr_inj hm hn (str_append_left_cancel h)⟩

/-- Stripping the family infix from an assigned layout key yields the
assigned trace reference. -/
theorem stripAxisInfix_keyOf (f : Family) (n : ℕ) :
    stripAxisInfix (keyOf f n) = traceRef f n := by
  have hc := classify_keyOf f n
  cases f with
  | xaxis =>
    simp only [stripAxisInfix, hc]
    rw [show (keyOf Family.xaxis n).data
        = ("xaxis" : String).data ++ (numStr n).data from String.data_append _ _]
    rw [show (5 : ℕ) = ("xaxis" : String).data.length from rfl, List.drop_left,
      string_mk_data]
    rfl
  | yaxis =>
    simp only [stripAxisInfix, hc]
    rw [show (keyOf Family.yaxis n).data
        = ("yaxis" : String).data ++ (numStr n).data from String.data_append _ _]
    rw [show (5 : ℕ) = ("yaxis" : String).data.length from rfl, List.drop_left,
      string_mk_data]
    rfl
  | scene => simp [stripAxisInfix, keyOf, classify_family_append, traceRef, famRef]
  | polar => simp [stripAxisInfix, keyOf, classify_family_append, traceRef, famRef]
  | ternary => simp [stripAxisInfix, keyOf, classify_family_append, traceRef, famRef]

/-! ## Counter-state and further association-list lemmas -/

theorem AxesStart.get_set_self (st : AxesStart) (f : Family) (n : ℕ) :
    (st.set f n).get f = n := by
  cases f <;> rfl

theorem AxesStart.get_set_ne (st : AxesStart) (f g : Family) (n : ℕ)
    (h : g ≠ f) : (st.set f n).get g = st.get g := by
  cases f <;> cases g <;> first | rfl | exact absurd rfl h

/-- Every entry of `aset d k v` is an entry of `d` or the pair `(k, v)`. -/
theorem mem_aset {α : Type} (d : List (String × α)) (k : String) (v : α) :
    ∀ p ∈ aset d k v, p ∈ d ∨ p = (k, v) := by
  induction d with
  | nil => intro p hp; simp [aset] at hp; exact Or.inr hp
  | cons q rest ih =>
    obtain ⟨k1, v1⟩ := q
    intro p hp
    by_cases h : k1 = k
    · simp only [aset, h, if_true, List.mem_cons] at hp
      rcases hp with hp | hp
      · exact Or.inr hp
      · exact Or.inl (List.mem_cons_of_mem _ hp)
    · simp only [aset, h, if_false, List.mem_cons] at hp
      rcases hp with hp | hp
      · exact Or.inl (by simp [hp])
      · rcases ih p hp with h2 | h2
        · exact Or.inl (List.mem_cons_of_mem _ h2)
        · exact Or.inr h2

/-- Setting a fresh key appends the pair. -/
theorem aset_append {α : Type} (d : List (String × α)) (k : String) (v : α)
    (h : aget? d k = none) : aset d k v = d ++ [(k, v)] := by
  induction d with
  | nil => rfl
  | cons q rest ih =>
    obtain ⟨k1, v1⟩ := q
    by_cases hp : k1 = k
    · simp [aget?, hp] at h
    · simp only [aget?, hp, if_false] at h
      simp [aset, hp, ih h]

/-- Lookup in an appended dict: the left part wins. -/
theorem aget?_append {α : Type} (d e : List (String × α)) (k : String) :
    aget? (d ++ e) k
      = match aget? d k with
        | some v => some v
        | none => aget? e k := by
  induction d with
  | nil => simp [aget?]
  | cons q rest ih =>
    obtain ⟨k1, v1⟩ := q
    by_cases hp : k1 = k
    · simp [aget?, hp]
    · simp [aget?, hp, ih]

/-- Updating with a dict of fresh, duplicate-free keys appends it. -/
theorem aupdate_append_fresh {α : Type} :
    ∀ (u d : List (String × α)), (∀ k ∈ akeys u, aget? d k = none) →
    (akeys u).Nodup → aupdate d u = d ++ u := by
  intro u
  induction u with
  | nil => intro d _ _; simp [aupdate]
  | cons q rest ih =>
    obtain ⟨k1, v1⟩ := q
    intro d hfresh hnodup
    have hku : akeys ((k1, v1) :: rest) = k1 :: akeys rest := rfl
    have hn1 : k1 ∉ akeys rest := by
      rw [hku] at hnodup
      exact (List.nodup_cons.mp hnodup).1
    have hnrest : (akeys rest).Nodup := by
      rw [hku] at hnodup
      exact (List.nodup_cons.mp hnodup).2
    have hset : aset d k1 v1 = d ++ [(k1, v1)] :=
      aset_append d k1 v1 (hfresh k1 (by rw [hku]; exact List.mem_cons_self _ _))
    have hstep : aupdate d ((k1, v1) :: rest) = aupdate (aset d k1 v1) rest := rfl
    have hfresh2 : ∀ k ∈ akeys rest, aget? (d ++ [(k1, v1)]) k = none := by
      intro k hk
      rw [aget?_append]
      have hd2 : aget? d k = none :=
        hfresh k (by rw [hku]; exact List.mem_cons_of_mem _ hk)
      have hk1 : k1 ≠ k := fun hc => hn1 (hc ▸ hk)
      simp [hd2, aget?, hk1]
    rw [hstep, hset, ih (d ++ [(k1, v1)]) hfresh2 hnrest]
    simp

/-- Mapping over the values of a dict preserves its keys. -/
theorem akeys_mapval {α β : Type} (d : List (String × α)) (g : α → β) :
    akeys (d.map (fun p => (p.1, g p.2))) = akeys d := by
  induction d with
  | nil => rfl
  | cons q rest ih => simp only [akeys, List.map_cons] at ih ⊢; rw [ih]

/-- A successful remap-table lookup is an entry of the table. -/
theorem slookup_mem (remap : SMap) (s t : String)
    (h : slookup remap s = some t) : (s, t) ∈ remap := by
  induction remap with
  | nil => simp [slookup] at h
  | cons q rest ih =>
    obtain ⟨k1, v1⟩ := q
    by_cases hp : k1 = s
    · simp only [slookup, hp, if_true, Option.some.injEq] at h
      simp [hp, h]
    · simp only [slookup, hp, if_false] at h
      exact List.mem_cons_of_mem _ (ih h)

/-- Every element of a successful `mapM` image comes from an element of the
source list. -/
theorem mapM_ok_mem {α β : Type} (f : α → Except PyErr β) :
    ∀ (l : List α) (out : List β), l.mapM f = Except.ok out →
      ∀ b ∈ out, ∃ a ∈ l, f a = Except.ok b := by
  intro l
  induction l with
  | nil =>
    intro out h b hb
    simp [List.mapM, List.mapM.loop, Pure.pure, Except.pure] at h
    rw [h] at hb
    simp at hb
  | cons a rest ih =>
    intro out h b hb
    rw [List.mapM_cons] at h
    rw [except_bind_ok] at h
    obtain ⟨b1, hb1, h⟩ := h
    rw [except_bind_ok] at h
    obtain ⟨bs, hbs, h⟩ := h
    simp [Pure.pure, Except.pure] at h
    rw [← h] at hb
    rcases List.mem_cons.mp hb with hb | hb
    · exact ⟨a, by simp, hb ▸ hb1⟩
    · obtain ⟨a2, ha2, hfa2⟩ := ih bs hbs b hb
      exact ⟨a2, List.mem_cons_of_mem _ ha2, hfa2⟩

/-! ## Characterizations of the per-axis and per-trace steps -/

/-- A successful `resize_axis` returns the layout key `type_ ++ num` and the
trace reference `famRef ++ num`. -/
theorem resize_axis_ok (f : Family) (oldk : String) (axis : Obj) (num : String)
    (nd : DomBox) (out : Obj × String × String × String)
    (h : resize_axis f.str oldk axis num nd = Except.ok out) :
    out.2.1 = f.str ++ num ∧ out.2.2.2 = famRef f ++ num := by
  cases f with
  | xaxis =>
    simp only [resize_axis, Family.str, strHead, Bind.bind, Except.bind] at h
    cases hax : resize_xy_axis axis nd (String.mk ['x']) with
    | error e => rw [hax] at h; simp at h
    | ok axis' =>
      rw [hax] at h
      simp at h
      subst h
      exact ⟨rfl, rfl⟩
  | yaxis =>
    simp only [resize_axis, Family.str, strHead, Bind.bind, Except.bind] at h
    cases hax : resize_xy_axis axis nd (String.mk ['y']) with
    | error e => rw [hax] at h; simp at h
    | ok axis' =>
      rw [hax] at h
      simp at h
      subst h
      exact ⟨rfl, rfl⟩
  | scene =>
    simp only [resize_axis, Family.str, Bind.bind, Except.bind] at h
    cases hax : resize_domain axis nd with
    | error e => rw [hax] at h; simp at h
    | ok axis' =>
      rw [hax] at h
      simp at h
      subst h
      exact ⟨rfl, rfl⟩
  | polar =>
    simp only [resize_axis, Family.str, Bind.bind, Except.bind] at h
    cases hax : resize_domain axis nd with
    | error e => rw [hax] at h; simp at h
    | ok axis' =>
      rw [hax] at h
      simp at h
      subst h
      exact ⟨rfl, rfl⟩
  | ternary =>
    simp only [resize_axis, Family.str, Bind.bind, Except.bind] at h
    cases hax : resize_domain axis nd with
    | error e => rw [hax] at h; simp at h
    | ok axis' =>
      rw [hax] at h
      simp at h
      subst h
      exact ⟨rfl, rfl⟩

/-- A successful `resize_domain` either returns the object unchanged or only
reassigns its `"domain"` key. -/
theorem resize_domain_shape (obj : Obj) (nd : DomBox) (obj' : Obj)
    (h : resize_domain obj nd = Except.ok obj') :
    obj' = obj ∨ ∃ x, obj' = aset obj "domain" x := by
  simp only [resize_domain, except_bind_ok] at h
  obtain ⟨dv, hdom, h⟩ := h
  obtain ⟨dd, hpd, h⟩ := h
  obtain ⟨ox, hx, h⟩ := h
  obtain ⟨oy, hy, h⟩ := h
  cases htry : resize_domain_try obj (dbTruthy nd "x") (dbTruthy nd "y") ox oy with
  | error e =>
    rw [htry] at h
    cases e <;> simp_all
  | ok obj2 =>
    rw [htry] at h
    simp only [Except.ok.injEq] at h
    subst h
    rw [resize_domain_try.eq_def] at htry
    simp only [Bind.bind, Except.bind] at htry
    repeat' split at htry
    all_goals
      first
        | exact Except.noConfusion htry
        | exact Or.inl (Except.ok.inj htry).symm
        | exact Or.inr ⟨_, (Except.ok.inj htry).symm⟩

/-- `reassignField` on a different key preserves the lookup. -/
theorem reassignField_get_ne (remap : SMap) (tr : Obj) (k k' : String)
    (tr' : Obj) (h : reassignField remap tr k = Except.ok tr')
    (hne : k ≠ k') : aget? tr' k' = aget? tr k' := by
  rw [reassignField] at h
  cases hg : aget? tr k with
  | none =>
    rw [hg] at h
    simp only [Except.ok.injEq] at h
    rw [← h]
  | some v =>
    rw [hg] at h
    simp only [except_bind_ok] at h
    obtain ⟨t, hri, h⟩ := h
    simp only [Except.ok.injEq] at h
    rw [← h]
    exact aget?_aset_ne tr k (Val1.str t) k' hne

/-- `reassignField` leaves its key absent, or rewrites it to a remapped
string value. -/
theorem reassignField_get_self (remap : SMap) (tr : Obj) (k : String)
    (tr' : Obj) (h : reassignField remap tr k = Except.ok tr') :
    aget? tr' k = none
    ∨ ∃ s t, slookup remap s = some t ∧ aget? tr' k = some (Val1.str t) := by
  rw [reassignField] at h
  cases hg : aget? tr k with
  | none =>
    rw [hg] at h
    simp only [Except.ok.injEq] at h
    rw [← h]
    exact Or.inl hg
  | some v =>
    rw [hg] at h
    simp only [except_bind_ok] at h
    obtain ⟨t, hri, h⟩ := h
    simp only [Except.ok.injEq] at h
    cases v with
    | pdict d => simp [remapIndex] at hri
    | prim p =>
      cases p with
      | num q => simp [remapIndex] at hri
      | bool b => simp [remapIndex] at hri
      | list l => simp [remapIndex] at hri
      | str s =>
        simp only [remapIndex] at hri
        cases hsl : slookup remap s with
        | none => rw [hsl] at hri; simp at hri
        | some t2 =>
          rw [hsl] at hri
          simp only [Except.ok.injEq] at hri
          subst hri
          rw [← h]
          exact Or.inr ⟨s, t2, hsl, aget?_aset_self tr k (Val1.str t2)⟩

/-! ## The layout-loop characterization -/

/-- One pass of `resizeLoop` preserves the invariant, advances each family
counter by the number of keys classified into it, and appends exactly the
classified keys to `old_axes`. -/
theorem resizeLoop_char (nd : DomBox) (st0 : AxesStart)
    (h0 : ∀ g, 1 ≤ st0.get g) :
    ∀ (entries : List (String × LVal)) (acc acc' : ResizeAcc),
    resizeLoop nd entries acc = Except.ok acc' →
    ResizeInv st0 acc →
    ResizeInv st0 acc'
    ∧ (∀ g, acc'.st.get g = acc.st.get g + cntFam g entries)
    ∧ acc'.old_axes = acc.old_axes
        ++ (akeys entries).filter (fun k => (classify k).isSome) := by
  intro entries
  induction entries with
  | nil =>
    intro acc acc' h hinv
    simp only [resizeLoop, Except.ok.injEq] at h
    subst h
    refine ⟨hinv, ?_, ?_⟩
    · intro g; simp [cntFam, famKeys, akeys]
    · simp [akeys]
  | cons e rest ih =>
    obtain ⟨k, v⟩ := e
    intro acc acc' h hinv
    cases hcls : classify k with
    | none =>
      simp only [resizeLoop] at h
      rw [hcls] at h
      obtain ⟨hinv', hcnt, hold⟩ := ih acc acc' h hinv
      refine ⟨hinv', ?_, ?_⟩
      · intro g
        have : cntFam g ((k, v) :: rest) = cntFam g rest := by
          simp [cntFam, famKeys, akeys, hcls]
        rw [this]
        exact hcnt g
      · rw [hold]
        simp [akeys, hcls]
    | some f =>
      simp only [resizeLoop] at h
      rw [hcls] at h
      simp only [except_bind_ok] at h
      obtain ⟨axObj, hobj, h⟩ := h
      obtain ⟨r, hra, h⟩ := h
      obtain ⟨hmono, hfam, hremap, hnd, hclsk⟩ := hinv
      have hr := resize_axis_ok f k axObj (numStr (acc.st.get f)) nd r hra
      have hkey : r.2.1 = keyOf f (acc.st.get f) := hr.1
      have htr : r.2.2.2 = traceRef f (acc.st.get f) := hr.2
      have h1n : 1 ≤ acc.st.get f := le_trans (h0 f) (hmono f)
      have hfresh : aget? acc.new_axes (keyOf f (acc.st.get f)) = none := by
        cases hg : aget? acc.new_axes (keyOf f (acc.st.get f)) with
        | none => rfl
        | some w =>
          exfalso
          have hmem : keyOf f (acc.st.get f) ∈ akeys acc.new_axes := by
            rw [mem_akeys_iff_aget?, hg]; rfl
          obtain ⟨g, m, hm1, hm2, heq⟩ := hclsk _ hmem
          have hm1' : 1 ≤ m := le_trans (h0 g) hm1
          obtain ⟨hgf, hmn⟩ := keyOf_inj hm1' h1n heq.symm
          subst hgf
          omega
      have hknew : akeys (aset acc.new_axes r.2.1 (LVal.obj r.1))
          = akeys acc.new_axes ++ [keyOf f (acc.st.get f)] := by
        rw [hkey]
        exact akeys_aset_not_mem _ _ _ hfresh
      have hnotmem : keyOf f (acc.st.get f) ∉ akeys acc.new_axes := by
        rw [mem_akeys_iff_aget?, hfresh]; simp
      have hinv1 : ResizeInv st0
          ⟨aset acc.axes_remapping r.2.2.1 r.2.2.2,
           aset acc.new_axes r.2.1 (LVal.obj r.1),
           acc.old_axes ++ [k], acc.st.set f (acc.st.get f + 1)⟩ := by
        refine ⟨?_, ?_, ?_, ?_, ?_⟩
        · intro g
          by_cases hgf : g = f
          · subst hgf
            rw [AxesStart.get_set_self]
            exact le_trans (hmono g) (Nat.le_succ _)
          · rw [AxesStart.get_set_ne _ _ _ _ hgf]
            exact hmono g
        · intro g
          show famKeys g (aset acc.new_axes r.2.1 (LVal.obj r.1)) = _
          rw [famKeys, hknew, List.filter_append]
          by_cases hgf : g = f
          · subst hgf
            rw [AxesStart.get_set_self]
            have hwin : acc.st.get g + 1 - st0.get g = (acc.st.get g - st0.get g) + 1 := by
              have := hmono g
              omega
            rw [hwin, List.range'_1_concat, List.map_append]
            have hcg : classify (keyOf g (acc.st.get g)) = some g := classify_keyOf g _
            have hpos : st0.get g + (acc.st.get g - st0.get g) = acc.st.get g := by
              have := hmono g
              omega
            rw [← hfam g]
            simp [famKeys, hcg, hpos]
          · rw [AxesStart.get_set_ne _ _ _ _ hgf]
            have hcg : classify (keyOf f (acc.st.get f)) = some f := classify_keyOf f _
            have hfg : f ≠ g := fun hc => hgf hc.symm
            have : (List.filter (fun kk => classify kk == some g)
                [keyOf f (acc.st.get f)]) = [] := by
              simp [hcg, hfg]
            rw [this, List.append_nil, ← hfam g]
            rfl
        · intro p hp
          rcases mem_aset _ _ _ p hp with hmem | hpair
          · obtain ⟨g, m, hm1, hm2, hv⟩ := hremap p hmem
            refine ⟨g, m, hm1, ?_, hv⟩
            by_cases hgf : g = f
            · subst hgf
              rw [AxesStart.get_set_self]
              omega
            · rw [AxesStart.get_set_ne _ _ _ _ hgf]
              exact hm2
          · refine ⟨f, acc.st.get f, hmono f, ?_, ?_⟩
            · rw [AxesStart.get_set_self]
              omega
            · rw [hpair, htr]
        · show (akeys (aset acc.new_axes r.2.1 (LVal.obj r.1))).Nodup
          rw [hknew]
          simp [List.nodup_append, hnd, hnotmem]
        · intro kk hkk
          rw [hknew] at hkk
          rcases List.mem_append.mp hkk with hmem | hone
          · obtain ⟨g, m, hm1, hm2, hv⟩ := hclsk kk hmem
            refine ⟨g, m, hm1, ?_, hv⟩
            by_cases hgf : g = f
            · subst hgf
              rw [AxesStart.get_set_self]
              omega
            · rw [AxesStart.get_set_ne _ _ _ _ hgf]
              exact hm2
          · refine ⟨f, acc.st.get f, hmono f, ?_, by simpa using hone⟩
            rw [AxesStart.get_set_self]
            omega
      obtain ⟨hinv', hcnt, hold⟩ := ih _ acc' h hinv1
      refine ⟨hinv', ?_, ?_⟩
      · intro g
        rw [hcnt g]
        have hcc : cntFam g ((k, v) :: rest)
            = cntFam g rest + (if g = f then 1 else 0) := by
          by_cases hgf : g = f
          · subst hgf
            simp [cntFam, famKeys, akeys, hcls]
          · have hfg : f ≠ g := fun hc => hgf hc.symm
            simp [cntFam, famKeys, akeys, hcls, hfg, hgf]
        rw [hcc]
        by_cases hgf : g = f
        · subst hgf
          rw [AxesStart.get_set_self, if_pos rfl]
          omega
        · rw [AxesStart.get_set_ne _ _ _ _ hgf, if_neg hgf]
          omega
      · rw [hold]
        show _ = acc.old_axes ++ List.filter _ (akeys ((k, v) :: rest))
        have : akeys ((k, v) :: rest) = k :: akeys rest := rfl
        rw [this, List.filter_cons]
        simp [hcls]

/-! ## The pop pass -/

/-- On a dict with duplicate-free keys, `pop` removes exactly the entries
carrying the popped key. -/
theorem apop_eq_filter {α : Type} :
    ∀ (d : List (String × α)) (k : String) (v : α) (d' : List (String × α)),
    (akeys d).Nodup → apop d k = some (v, d') →
    d' = d.filter (fun p => !decide (p.1 = k)) := by
  intro d
  induction d with
  | nil => intro k v d' _ h; simp [apop] at h
  | cons q rest ih =>
    obtain ⟨k1, v1⟩ := q
    intro k v d' hnd h
    have hk1 : k1 ∉ akeys rest := (List.nodup_cons.mp hnd).1
    have hnd2 : (akeys rest).Nodup := (List.nodup_cons.mp hnd).2
    by_cases hp : k1 = k
    · subst hp
      simp only [apop, if_true, Option.some.injEq, Prod.mk.injEq] at h
      rw [← h.2, List.filter_cons]
      have hall : rest.filter (fun p => !decide (p.1 = k1)) = rest := by
        apply List.filter_eq_self.mpr
        intro p hp2
        have : p.1 ≠ k1 := by
          intro hc
          exact hk1 (hc ▸ List.mem_map_of_mem Prod.fst hp2)
        simp [this]
      simp [hall]
    · simp only [apop, if_neg hp] at h
      cases hrest : apop rest k with
      | none => rw [hrest] at h; simp at h
      | some p2 =>
        rw [hrest] at h
        obtain ⟨v2, d2⟩ := p2
        simp only [Option.map_some', Option.some.injEq, Prod.mk.injEq] at h
        rw [← h.2, List.filter_cons]
        simp [hp, ih k v2 d2 hnd2 hrest]

/-- Filtering by a predicate on the key commutes with taking the key list. -/
theorem akeys_filter_key {α : Type} (q : String → Bool) :
    ∀ (d : List (String × α)),
    akeys (d.filter (fun p => q p.1)) = (akeys d).filter q := by
  intro d
  induction d with
  | nil => rfl
  | cons p rest ih =>
    obtain ⟨k1, v1⟩ := p
    cases hq : q k1 <;>
      simp [akeys, List.filter_cons, hq] <;>
      simpa [akeys] using ih

/-- The `for axis in old_axes: fig_layout.pop(axis)` pass on a dict with
duplicate-free keys removes exactly the entries whose key is listed. -/
theorem popAll_char :
    ∀ (ks : List String) (d d' : PyDict), (akeys d).Nodup →
    popAll d ks = Except.ok d' →
    d' = d.filter (fun p => !decide (p.1 ∈ ks)) := by
  intro ks
  induction ks with
  | nil =>
    intro d d' _ h
    simp only [popAll, Except.ok.injEq] at h
    simp [← h]
  | cons k rest ih =>
    intro d d' hnd h
    simp only [popAll, except_bind_ok] at h
    obtain ⟨d1, hpop, h⟩ := h
    rw [popKeyE] at hpop
    cases hap : apop d k with
    | none => rw [hap] at hpop; simp at hpop
    | some p =>
      rw [hap] at hpop
      obtain ⟨v1, d2⟩ := p
      simp only [Except.ok.injEq] at hpop
      subst hpop
      have hd1 : d2 = d.filter (fun p => !decide (p.1 = k)) :=
        apop_eq_filter d k v1 d2 hnd hap
      have hnd1 : (akeys d2).Nodup := by
        have hsub : List.Sublist d2 d := by rw [hd1]; exact List.filter_sublist d
        exact hnd.sublist (hsub.map Prod.fst)
      rw [ih d2 d' hnd1 h, hd1, List.filter_filter]
      apply List.filter_congr
      intro p _
      by_cases h1 : p.1 = k <;> by_cases h2 : p.1 ∈ rest <;>
        simp [h1, h2]

/-! ## The trace pass -/

/-- After `reassign_axes`, each of the five reference fields is absent or
holds a string drawn from the remap table. -/
theorem reassign_axes_fields (remap : SMap) (tr tr' : Obj)
    (h : reassign_axes tr remap = Except.ok tr') :
    ∀ k ∈ (["xaxis", "yaxis", "scene", "subplot", "ternary"] : List String),
    aget? tr' k = none
    ∨ ∃ s t, slookup remap s = some t ∧ aget? tr' k = some (Val1.str t) := by
  simp only [reassign_axes, except_bind_ok] at h
  obtain ⟨t1, h1, h⟩ := h
  obtain ⟨t2, h2, h⟩ := h
  obtain ⟨t3, h3, h⟩ := h
  obtain ⟨t4, h4, h5⟩ := h
  intro k hk
  simp only [List.mem_cons, List.not_mem_nil, or_false] at hk
  rcases hk with rfl | rfl | rfl | rfl | rfl
  · rw [reassignField_get_ne remap t4 "ternary" "xaxis" tr' h5 (by decide),
      reassignField_get_ne remap t3 "subplot" "xaxis" t4 h4 (by decide),
      reassignField_get_ne remap t2 "scene" "xaxis" t3 h3 (by decide),
      reassignField_get_ne remap t1 "yaxis" "xaxis" t2 h2 (by decide)]
    exact reassignField_get_self remap tr "xaxis" t1 h1
  · rw [reassignField_get_ne remap t4 "ternary" "yaxis" tr' h5 (by decide),
      reassignField_get_ne remap t3 "subplot" "yaxis" t4 h4 (by decide),
      reassignField_get_ne remap t2 "scene" "yaxis" t3 h3 (by decide)]
    exact reassignField_get_self remap t1 "yaxis" t2 h2
  · rw [reassignField_get_ne remap t4 "ternary" "scene" tr' h5 (by decide),
      reassignField_get_ne remap t3 "subplot" "scene" t4 h4 (by decide)]
    exact reassignField_get_self remap t2 "scene" t3 h3
  · rw [reassignField_get_ne remap t4 "ternary" "subplot" tr' h5 (by decide)]
    exact reassignField_get_self remap t3 "subplot" t4 h4
  · exact reassignField_get_self remap t4 "ternary" tr' h5

/-- After the per-trace step of `resize`, each of the five reference fields
is absent or holds a string drawn from the remap table. -/
theorem resizeTrace_fields (nd : DomBox) (remap : SMap) (tr tr' : Obj)
    (h : resizeTrace nd remap tr = Except.ok tr') :
    ∀ k ∈ (["xaxis", "yaxis", "scene", "subplot", "ternary"] : List String),
    aget? tr' k = none
    ∨ ∃ s t, slookup remap s = some t ∧ aget? tr' k = some (Val1.str t) := by
  simp only [resizeTrace, except_bind_ok] at h
  obtain ⟨t1, h1, h⟩ := h
  intro k hk
  have hkd : k ≠ "domain" := by
    simp only [List.mem_cons, List.not_mem_nil, or_false] at hk
    rcases hk with rfl | rfl | rfl | rfl | rfl <;> decide
  have hget : aget? tr' k = aget? t1 k := by
    cases hd : amem t1 "domain" with
    | false =>
      rw [hd] at h
      simp only [Bool.false_eq_true, if_false, Except.ok.injEq] at h
      subst h
      rfl
    | true =>
      rw [hd] at h
      simp only [if_true] at h
      rcases resize_domain_shape t1 nd tr' h with rfl | ⟨x, rfl⟩
      · rfl
      · exact aget?_aset_ne t1 "domain" x k (fun hc => hkd hc.symm)
  rw [hget]
  exact reassign_axes_fields remap tr t1 h1 k hk

/-! ## The full `resize` characterization -/

/-- A successful non-trivial `resize`: the counters advance by the number of
family-classified layout keys; the family-classified keys of the returned
layout are exactly the freshly assigned counter-window keys of each family;
and every trace reference field of the returned traces is absent or names
(after stripping the family infix) a family-classified key of the returned
layout. -/
theorem resize_char (fig_data : List Obj) (fig_layout : PyDict) (nd : DomBox)
    (st0 : AxesStart) (data' : List Obj) (layout' : PyDict) (st' : AxesStart)
    (h0 : ∀ g, 1 ≤ st0.get g)
    (hnodup : (akeys fig_layout).Nodup)
    (hne : nd.isEmpty = false)
    (h : resize fig_data fig_layout nd st0 = Except.ok (data', layout', st')) :
    (∀ g, st0.get g ≤ st'.get g)
    ∧ (∀ g, st'.get g = st0.get g + cntFam g fig_layout)
    ∧ (∀ g, famKeys g layout'
        = (List.range' (st0.get g) (st'.get g - st0.get g)).map (keyOf g))
    ∧ (∀ tr' ∈ data',
        ∀ k ∈ (["xaxis", "yaxis", "scene", "subplot", "ternary"] : List String),
        aget? tr' k = none
        ∨ ∃ kk ∈ akeys layout', (classify kk).isSome
            ∧ aget? tr' k = some (Val1.str (stripAxisInfix kk))) := by
  rw [resize, hne] at h
  simp only [Bool.false_eq_true, if_false, except_bind_ok] at h
  obtain ⟨acc, hloop, h⟩ := h
  obtain ⟨layout1, hpop, h⟩ := h
  obtain ⟨data0, hmap, h⟩ := h
  simp only [Except.ok.injEq, Prod.mk.injEq] at h
  obtain ⟨rfl, rfl, rfl⟩ := h
  have hinv0 : ResizeInv st0 ⟨[], [], [], st0⟩ := by
    refine ⟨fun g => le_refl _, fun g => by simp [famKeys, akeys],
      by simp, by simp [akeys], by simp [akeys]⟩
  obtain ⟨hinv, hcnt, hold⟩ :=
    resizeLoop_char nd st0 h0 fig_layout ⟨[], [], [], st0⟩ acc hloop hinv0
  obtain ⟨hmono, hfam, hremap, hnodupnew, hnewkeys⟩ := hinv
  have hcnt' : ∀ g, acc.st.get g = st0.get g + cntFam g fig_layout := hcnt
  have hold' : acc.old_axes
      = (akeys fig_layout).filter (fun k => (classify k).isSome) := by
    simpa using hold
  have hlay1 : layout1 = fig_layout.filter (fun p => !decide (p.1 ∈ acc.old_axes)) :=
    popAll_char acc.old_axes fig_layout layout1 hnodup hpop
  have hkey1 : ∀ k ∈ akeys layout1, k ∈ akeys fig_layout ∧ classify k = none := by
    intro k hk
    rw [hlay1] at hk
    simp only [akeys, List.mem_map] at hk
    obtain ⟨p, hp, rfl⟩ := hk
    have hpf := List.mem_filter.mp hp
    refine ⟨List.mem_map_of_mem Prod.fst hpf.1, ?_⟩
    have hnotin : p.1 ∉ acc.old_axes := by simpa using hpf.2
    by_contra hcl
    apply hnotin
    rw [hold']
    exact List.mem_filter.mpr ⟨List.mem_map_of_mem Prod.fst hpf.1,
      Option.isSome_iff_ne_none.mpr hcl⟩
  have hfam1 : ∀ g, famKeys g layout1 = [] := by
    intro g
    rw [famKeys]
    apply List.filter_eq_nil_iff.mpr
    intro k hk
    have := (hkey1 k hk).2
    simp [this]
  have hfresh : ∀ k ∈ akeys acc.new_axes, aget? layout1 k = none := by
    intro k hk
    obtain ⟨g, m, _, _, rfl⟩ := hnewkeys k hk
    cases hq : aget? layout1 (keyOf g m) with
    | none => rfl
    | some v =>
      have hm : keyOf g m ∈ akeys layout1 :=
        (mem_akeys_iff_aget? layout1 _).mpr (by simp [hq])
      have hc2 := (hkey1 _ hm).2
      rw [classify_keyOf] at hc2
      exact Option.noConfusion hc2
  have hlay2 : aupdate layout1 acc.new_axes = layout1 ++ acc.new_axes :=
    aupdate_append_fresh acc.new_axes layout1 hfresh hnodupnew
  have hakeys3 : akeys ((aupdate layout1 acc.new_axes).map
        (fun p => (p.1, reassign_attributes acc.axes_remapping p.2)))
      = akeys layout1 ++ akeys acc.new_axes := by
    rw [akeys_mapval, hlay2]
    exact List.map_append _ _ _
  have hfaml : ∀ g, famKeys g ((aupdate layout1 acc.new_axes).map
        (fun p => (p.1, reassign_attributes acc.axes_remapping p.2)))
      = (List.range' (st0.get g) (acc.st.get g - st0.get g)).map (keyOf g) := by
    intro g
    rw [famKeys, hakeys3, List.filter_append]
    have e1 : (akeys layout1).filter (fun k => classify k == some g) = [] := hfam1 g
    have e2 : (akeys acc.new_axes).filter (fun k => classify k == some g)
        = (List.range' (st0.get g) (acc.st.get g - st0.get g)).map (keyOf g) := hfam g
    rw [e1, e2, List.nil_append]
  refine ⟨hmono, hcnt', hfaml, ?_⟩
  intro tr' htr k hk
  obtain ⟨tr, _, htrok⟩ := mapM_ok_mem _ fig_data data0 hmap tr' htr
  rcases resizeTrace_fields nd acc.axes_remapping tr tr' htrok k hk with
    hnone | ⟨s, t, hsl, hget⟩
  · exact Or.inl hnone
  · right
    have hmem := slookup_mem _ _ _ hsl
    obtain ⟨g, m, hm1, hm2, ht⟩ := hremap (s, t) hmem
    have ht' : t = traceRef g m := ht
    have hmrange : m ∈ List.range' (st0.get g) (acc.st.get g - st0.get g) := by
      rw [List.mem_range'_1]
      refine ⟨hm1, ?_⟩
      have := hmono g
      omega
    have hk1 : keyOf g m ∈ famKeys g acc.new_axes := by
      rw [hfam g]
      exact List.mem_map_of_mem _ hmrange
    have hk2 : keyOf g m ∈ akeys acc.new_axes := List.mem_of_mem_filter hk1
    refine ⟨keyOf g m, ?_, ?_, ?_⟩
    · rw [hakeys3]
      exact List.mem_append_right _ hk2
    · simp [classify_keyOf]
    · rw [hget, ht', ← stripAxisInfix_keyOf]

/-! ## The threaded numbering across a composition -/

/-- Gluing adjacent counter windows of `List.range'`. -/
theorem range'_glue {a b c : ℕ} (hab : a ≤ b) (hbc : b ≤ c) :
    List.range' a (b - a) ++ List.range' b (c - b) = List.range' a (c - a) := by
  have h := List.range'_append a (b - a) (c - b) 1
  rw [show a + 1 * (b - a) = b by omega] at h
  rw [show (c - b) + (b - a) = c - a by omega] at h
  exact h

/-- Threading the shared counters through `resize` for each input in order:
counters only grow, and for each family the concatenation of the newly
assigned layout keys over all inputs is the rendering of one contiguous
counter window. -/
theorem resizeSeq_char :
    ∀ (inps : List (Fig × DomBox)) (st0 : AxesStart) (louts : List PyDict)
      (st' : AxesStart),
    (∀ g, 1 ≤ st0.get g) →
    (∀ p ∈ inps, (p.2 : DomBox).isEmpty = false) →
    (∀ p ∈ inps, (akeys (p.1 : Fig).layout).Nodup) →
    resizeSeq inps st0 = Except.ok (louts, st') →
    (∀ g, st0.get g ≤ st'.get g)
    ∧ (∀ g, (louts.map (famKeys g)).flatten
        = (List.range' (st0.get g) (st'.get g - st0.get g)).map (keyOf g)) := by
  intro inps
  induction inps with
  | nil =>
    intro st0 louts st' h0 _ _ h
    simp only [resizeSeq, Except.ok.injEq, Prod.mk.injEq] at h
    obtain ⟨rfl, rfl⟩ := h
    exact ⟨fun g => le_refl _, fun g => by simp [Nat.sub_self]⟩
  | cons p rest ih =>
    obtain ⟨f, b⟩ := p
    intro st0 louts st' h0 hnd hnodup h
    simp only [resizeSeq, except_bind_ok] at h
    obtain ⟨r1, hr1, h⟩ := h
    obtain ⟨r2, hr2, h⟩ := h
    simp only [Except.ok.injEq, Prod.mk.injEq] at h
    obtain ⟨rfl, rfl⟩ := h
    obtain ⟨d1, l1, st1⟩ := r1
    obtain ⟨louts2, st2⟩ := r2
    obtain ⟨hm1, _, hf1, _⟩ := resize_char f.data f.layout b st0 d1 l1 st1 h0
      (hnodup (f, b) (List.mem_cons_self _ _)) (hnd (f, b) (List.mem_cons_self _ _))
      hr1
    have h1 : ∀ g, 1 ≤ st1.get g := fun g => le_trans (h0 g) (hm1 g)
    obtain ⟨hm2, hf2⟩ := ih st1 louts2 st2 h1
      (fun q hq => hnd q (List.mem_cons_of_mem _ hq))
      (fun q hq => hnodup q (List.mem_cons_of_mem _ hq)) hr2
    refine ⟨fun g => le_trans (hm1 g) (hm2 g), fun g => ?_⟩
    simp only [List.map_cons, List.flatten_cons]
    rw [hf1 g, hf2 g, ← List.map_append, range'_glue (hm1 g) (hm2 g)]

/-- C2: with `domains` supplied, the Layering Engine threads one counter
state (initialized to 1 per family) through every input's `resize` in order;
for each family, the newly assigned layout keys collected over all inputs
are duplicate-free, and the first such key of a family is the unqualified
family name with no numeral suffix. -/
theorem claim_C2 (inps : List (Fig × DomBox)) (louts : List PyDict)
    (st' : AxesStart) (g : Family)
    (hnd : ∀ p ∈ inps, (p.2 : DomBox).isEmpty = false)
    (hnodup : ∀ p ∈ inps, (akeys (p.1 : Fig).layout).Nodup)
    (h : resizeSeq inps initAxesStart = Except.ok (louts, st')) :
    ((louts.map (famKeys g)).flatten).Nodup
    ∧ ((louts.map (famKeys g)).flatten ≠ [] →
        ((louts.map (famKeys g)).flatten).head? = some g.str) := by
  have h0 : ∀ g, 1 ≤ initAxesStart.get g := fun g => by cases g <;> decide
  obtain ⟨_, hjoin⟩ := resizeSeq_char inps initAxesStart louts st' h0 hnd hnodup h
  have h1 : initAxesStart.get g = 1 := by cases g <;> rfl
  constructor
  · rw [hjoin g, h1]
    apply List.Nodup.map_on
    · intro x hx y hy hxy
      have hx1 := (List.mem_range'_1.mp hx).1
      have hy1 := (List.mem_range'_1.mp hy).1
      exact (keyOf_inj hx1 hy1 hxy).2
    · exact List.nodup_range' _ _
  · intro hne
    rw [hjoin g] at hne ⊢
    have hlen : st'.get g - initAxesStart.get g ≠ 0 := by
      intro hz
      rw [hz] at hne
      simp at hne
    obtain ⟨n, hn⟩ := Nat.exists_eq_succ_of_ne_zero hlen
    rw [hn, h1]
    simp [List.range'_succ, keyOf, numStr, str_append_empty]

unseal Rat.add Rat.sub Rat.mul Rat.inv in
/-- Witness for C2: composing two one-x-axis figures over two domain boxes
assigns the keys `"xaxis"` and `"xaxis2"`: duplicate-free, and the first is
the unqualified family name. -/
theorem claim_C2_witness :
    ((([[("xaxis", LVal.obj [("domain", Val1.list [0, 1])])],
        [("xaxis2", LVal.obj [("domain", Val1.list [0, 1])])]] :
        List PyDict).map (famKeys Family.xaxis)).flatten).Nodup
    ∧ ((([[("xaxis", LVal.obj [("domain", Val1.list [0, 1])])],
        [("xaxis2", LVal.obj [("domain", Val1.list [0, 1])])]] :
        List PyDict).map (famKeys Family.xaxis)).flatten ≠ [] →
        ((([[("xaxis", LVal.obj [("domain", Val1.list [0, 1])])],
        [("xaxis2", LVal.obj [("domain", Val1.list [0, 1])])]] :
        List PyDict).map (famKeys Family.xaxis)).flatten).head?
          = some Family.xaxis.str) :=
  claim_C2
    [(⟨[], [("xaxis", LVal.obj [("domain", Val1.list [0, 1])])]⟩, [("x", [0, 1])]),
     (⟨[], [("xaxis", LVal.obj [("domain", Val1.list [0, 1])])]⟩, [("x", [0, 1])])]
    [[("xaxis", LVal.obj [("domain", Val1.list [0, 1])])],
     [("xaxis2", LVal.obj [("domain", Val1.list [0, 1])])]]
    ⟨3, 1, 1, 1, 1⟩ Family.xaxis (by decide) (by decide) (by decide)

unseal Rat.add Rat.sub Rat.mul Rat.inv in
/-- Counterexample to C3 as stated: the first freshly assigned key of a
family is textually the bare family name, so a figure whose original layout
used the bare key `"xaxis"` ends with `"xaxis"` present in the returned
layout — an original axis key remains (the pop pass deleted it, but a fresh
key coincides with it). -/
theorem claim_C3_counterexample :
    resize [] [("xaxis", LVal.obj [("domain", Val1.list [0, 1])])]
        [("x", [0, 1])] initAxesStart
      = Except.ok ([], [("xaxis", LVal.obj [("domain", Val1.list [0, 1])])],
          (⟨2, 1, 1, 1, 1⟩ : AxesStart))
    ∧ "xaxis" ∈ akeys [("xaxis", LVal.obj [("domain", Val1.list [0, 1])])] :=
  ⟨by decide, by decide⟩

/-- C3 (corrected): after a successful non-trivial `resize` of a layout with
duplicate-free keys, every family-classified key of the returned layout is a
freshly assigned counter-window key (all original axis entries are popped,
though a fresh key may textually coincide with an original one), and every
trace reference field is absent or names, after stripping the family infix,
a key of the returned layout. -/
theorem claim_C3 (fig_data : List Obj) (fig_layout : PyDict) (nd : DomBox)
    (st0 : AxesStart) (data' : List Obj) (layout' : PyDict) (st' : AxesStart)
    (h0 : ∀ g, 1 ≤ st0.get g)
    (hnodup : (akeys fig_layout).Nodup)
    (hne : nd.isEmpty = false)
    (h : resize fig_data fig_layout nd st0 = Except.ok (data', layout', st')) :
    (∀ k ∈ akeys layout', ∀ g, classify k = some g →
        ∃ m, st0.get g ≤ m ∧ m < st'.get g ∧ k = keyOf g m)
    ∧ (∀ tr' ∈ data',
        ∀ k ∈ (["xaxis", "yaxis", "scene", "subplot", "ternary"] : List String),
        aget? tr' k = none
        ∨ ∃ kk ∈ akeys layout',
            aget? tr' k = some (Val1.str (stripAxisInfix kk))) := by
  obtain ⟨hmono, _, hfam, htr⟩ :=
    resize_char fig_data fig_layout nd st0 data' layout' st' h0 hnodup hne h
  constructor
  · intro k hk g hg
    have hkf : k ∈ famKeys g layout' :=
      List.mem_filter.mpr ⟨hk, by simp [hg]⟩
    rw [hfam g] at hkf
    obtain ⟨m, hm, rfl⟩ := List.mem_map.mp hkf
    obtain ⟨hm1, hm2⟩ := List.mem_range'_1.mp hm
    refine ⟨m, hm1, ?_, rfl⟩
    have := hmono g
    omega
  · intro tr' htr' k hk
    rcases htr tr' htr' k hk with hnone | ⟨kk, hkk, _, hgv⟩
    · exact Or.inl hnone
    · exact Or.inr ⟨kk, hkk, hgv⟩

unseal Rat.add Rat.sub Rat.mul Rat.inv in
/-- Witness for C3: a one-trace, one-x-axis figure resized into the unit
domain; its layout key `"xaxis"` is the fresh counter-window key and its
trace's `"xaxis"` field names it after stripping the infix. -/
theorem claim_C3_witness :
    (∀ k ∈ akeys [("xaxis", LVal.obj [("domain", Val1.list [0, 1])])],
        ∀ g, classify k = some g →
        ∃ m, initAxesStart.get g ≤ m ∧ m < (⟨2, 1, 1, 1, 1⟩ : AxesStart).get g
          ∧ k = keyOf g m)
    ∧ (∀ tr' ∈ [[("xaxis", Val1.str "x")]],
        ∀ k ∈ (["xaxis", "yaxis", "scene", "subplot", "ternary"] : List String),
        aget? tr' k = none
        ∨ ∃ kk ∈ akeys [("xaxis", LVal.obj [("domain", Val1.list [0, 1])])],
            aget? tr' k = some (Val1.str (stripAxisInfix kk))) :=
  claim_C3 [[("xaxis", Val1.str "x")]]
    [("xaxis", LVal.obj [("domain", Val1.list [0, 1])])]
    [("x", [0, 1])] initAxesStart
    [[("xaxis", Val1.str "x")]]
    [("xaxis", LVal.obj [("domain", Val1.list [0, 1])])]
    (⟨2, 1, 1, 1, 1⟩ : AxesStart)
    (fun g => by cases g <;> decide)
    (by decide)
    (by decide)
    (by decide)

end PrivateUtils
